import Mathlib

/-!
# Sidechain activation table model (`src/qt/sidechainactivationtablemodel.cpp`)

A shallow embedding of `SidechainActivationTableModel::updateModel`,
`SidechainActivationTableModel::GetHashAtRow` and the accessors `rowCount`,
`columnCount` and `data`, followed by the properties of the reconciliation
pass and of the accessors.

Conventions of the embedding.

* `uint256` values are natural numbers.  The table object stores the id as the
  string `GetSerHash().ToString()` and reads it back with `uint256S`; the two
  conversions are inverse to each other on such strings, so the stored string
  is identified with the number it denotes.
* `sidechain.h` and `sidechaindb.h` are outside the source tree at hand.  The
  value of `proposal.GetSerHash()` is carried as a field of the proposal, and
  the three queries made on `scdb` are the fields of `SidechainDB`.
* `model` is a `QList<QVariant>` whose only writers are the two
  `QVariant::fromValue(object)` stores of `updateModel`, so every element
  converts to a table object and the `canConvert` early returns never fire;
  the list is a list of table objects.
* `QList::operator[]` and `QList::back` need a valid index / a non-empty list;
  outside of that the behaviour is undefined, which the embedding reports as
  `Fault.indexOutOfRange`.
* The signals emitted by a pass are collected, in order, in a list.
-/

namespace SidechainActivation

/-- A 256 bit hash value. -/
abbrev uint256 := Nat

/-- The fields of `Sidechain` read by the table model; `serHash` is the value
returned by `GetSerHash()`. -/
structure Sidechain where
  nSidechain : Nat
  title : String
  description : String
  serHash : uint256
  deriving DecidableEq, Repr

/-- The method `Sidechain::GetSerHash`. -/
def Sidechain.GetSerHash (p : Sidechain) : uint256 := p.serHash

/-- One entry of the snapshot returned by `GetSidechainActivationStatus`. -/
structure SidechainActivationStatus where
  nAge : Int
  nFail : Int
  proposal : Sidechain
  deriving DecidableEq, Repr

/-- One record of the display list. -/
structure SidechainActivationTableObject where
  fAck : Bool
  nSidechain : Nat
  fReplacement : Bool
  title : String
  description : String
  nAge : Int
  nFail : Int
  hash : uint256
  deriving DecidableEq, Repr

/-- The queries `updateModel` makes on the global `scdb`. -/
structure SidechainDB where
  GetSidechainActivationStatus : List SidechainActivationStatus
  GetAckSidechain : uint256 → Bool
  IsSidechainActive : Nat → Bool

/-- The signals of the model: `dataChanged` for the cells of one row,
`beginRemoveRows`/`endRemoveRows` and `beginInsertRows`/`endInsertRows` for a
range of rows. -/
inductive Signal where
  | dataChanged (row : Nat)
  | rowsRemoved (first last : Nat)
  | rowsInserted (first last : Nat)
  deriving DecidableEq, Repr

/-- The ways a run of the embedding can fail to produce a state. -/
inductive Fault where
  | indexOutOfRange
  | outOfFuel
  deriving DecidableEq, Repr

/-- The state of the model together with the signals emitted so far. -/
abbrev View := List SidechainActivationTableObject × List Signal

/-! ## Update pass (lines 139-175) -/

/-- The local variables of the body of the first loop. -/
structure RowScan where
  object : SidechainActivationTableObject
  fFound : Bool
  sigs : List Signal

/-- Body of the loop over `vActivationStatus` for row `i` (lines 150-168). -/
def scanStep (scdb : SidechainDB) (i : Nat) (st : RowScan)
    (s : SidechainActivationStatus) : RowScan :=
  if s.proposal.GetSerHash = st.object.hash then
    { object :=
        { st.object with
          nAge := s.nAge
          nFail := s.nFail
          fAck := scdb.GetAckSidechain s.proposal.GetSerHash
          fReplacement := scdb.IsSidechainActive s.proposal.nSidechain }
      fFound := true
      sigs := st.sigs ++ [Signal.dataChanged i] }
  else st

/-- The loop over `vActivationStatus` for row `i` (lines 144-169). -/
def scanRow (scdb : SidechainDB) (vActivationStatus : List SidechainActivationStatus)
    (i : Nat) (object : SidechainActivationTableObject) : RowScan :=
  vActivationStatus.foldl (scanStep scdb i) { object := object, fFound := false, sigs := [] }

/-- The state carried by the first loop. -/
structure UpdateState where
  model : List SidechainActivationTableObject
  vRemoved : List SidechainActivationTableObject
  sigs : List Signal

/-- Body of the first loop for index `i` (lines 141-174).  The store
`model[i] = object` happens in the matching branch only; in the other branch
`object` is still the copy of `model[i]`. -/
def updateStep (scdb : SidechainDB) (vActivationStatus : List SidechainActivationStatus)
    (st : UpdateState) (i : Nat) : UpdateState :=
  match st.model[i]? with
  | none => st
  | some object =>
    let r := scanRow scdb vActivationStatus i object
    { model := st.model.set i r.object
      vRemoved := if r.fFound then st.vRemoved else st.vRemoved ++ [r.object]
      sigs := st.sigs ++ r.sigs }

/-- The first loop, `for (int i = 0; i < model.size(); i++)`; the size of the
list is not changed by its body. -/
def updatePass (scdb : SidechainDB) (vActivationStatus : List SidechainActivationStatus)
    (model : List SidechainActivationTableObject) : UpdateState :=
  (List.range model.length).foldl (updateStep scdb vActivationStatus)
    { model := model, vRemoved := [], sigs := [] }

/-! ## Removal loop (lines 177-192) -/

/-- The two statements `model[i] = model.back(); model.pop_back();`. -/
def removeRow (i : Nat) (model : List SidechainActivationTableObject) :
    Except Fault (List SidechainActivationTableObject) :=
  match model.getLast? with
  | none => .error .indexOutOfRange
  | some last =>
    if i < model.length then .ok (model.set i last).dropLast
    else .error .indexOutOfRange

/-- The loop over `vRemoved` for row `i` (lines 184-191); `object` is the copy
of `model[i]` taken before the loop. -/
def removeScan (i : Nat) (object : SidechainActivationTableObject) :
    List SidechainActivationTableObject → View → Except Fault View
  | [], v => .ok v
  | s :: rest, v =>
    if s.hash = object.hash then
      match removeRow i v.1 with
      | .error e => .error e
      | .ok model => removeScan i object rest (model, v.2 ++ [Signal.rowsRemoved i i])
    else removeScan i object rest v

/-- The second loop, `for (int i = 0; i < model.size(); i++)`, started at
index `i`; `fuel` bounds the number of iterations. -/
def removalLoop (vRemoved : List SidechainActivationTableObject) :
    Nat → Nat → View → Except Fault View
  | 0, i, v => if i < v.1.length then .error .outOfFuel else .ok v
  | fuel + 1, i, v =>
    match v.1[i]? with
    | none => .ok v
    | some object =>
      match removeScan i object vRemoved v with
      | .error e => .error e
      | .ok v2 => removalLoop vRemoved fuel (i + 1) v2

/-! ## Insertion pass (lines 194-233) -/

/-- The loop over `model` that computes `fFound` for `s` (lines 198-207). -/
def foundInModel (model : List SidechainActivationTableObject)
    (s : SidechainActivationStatus) : Bool :=
  model.foldl (fun fFound object => if s.proposal.GetSerHash = object.hash then true else fFound)
    false

/-- The loop that collects `vNew` (lines 196-211). -/
def collectNew (model : List SidechainActivationTableObject)
    (vActivationStatus : List SidechainActivationStatus) : List SidechainActivationStatus :=
  vActivationStatus.foldl
    (fun vNew s => if foundInModel model s then vNew else vNew ++ [s]) []

/-- The table object built for a new snapshot entry (lines 220-229). -/
def newObject (scdb : SidechainDB) (s : SidechainActivationStatus) :
    SidechainActivationTableObject :=
  { fAck := scdb.GetAckSidechain s.proposal.GetSerHash
    nSidechain := s.proposal.nSidechain
    fReplacement := scdb.IsSidechainActive s.proposal.nSidechain
    title := s.proposal.title
    description := s.proposal.description
    nAge := s.nAge
    nFail := s.nFail
    hash := s.proposal.GetSerHash }

/-- Lines 213-233: nothing when `vNew` is empty, else one `beginInsertRows`
for the whole block followed by the appends. -/
def insertNew (scdb : SidechainDB) (vNew : List SidechainActivationStatus) (v : View) : View :=
  let nSidechains := vNew.length
  if vNew.isEmpty then v
  else
    (vNew.foldl (fun model s => model ++ [newObject scdb s]) v.1,
      v.2 ++ [Signal.rowsInserted v.1.length (v.1.length + nSidechains - 1)])

/-! ## `updateModel` and `GetHashAtRow` -/

/-- The state after the first two loops of `updateModel`.  The second loop
gets one unit of fuel per row of the list, which is enough since every
iteration advances `i` and none lengthens the list (`removalLoop_fuel`). -/
def removalPass (scdb : SidechainDB) (model : List SidechainActivationTableObject) :
    Except Fault View :=
  let st := updatePass scdb scdb.GetSidechainActivationStatus model
  removalLoop st.vRemoved st.model.length 0 (st.model, st.sigs)

/-- `SidechainActivationTableModel::updateModel` (lines 127-234): the new
content of `model` and the signals emitted, in order. -/
def updateModel (scdb : SidechainDB) (model : List SidechainActivationTableObject) :
    Except Fault View :=
  match removalPass scdb model with
  | .error e => .error e
  | .ok v => .ok (insertNew scdb (collectNew v.1 scdb.GetSidechainActivationStatus) v)

/-- `QList::operator[]` at an `int` index. -/
def modelAt (model : List SidechainActivationTableObject) (row : Int) :
    Except Fault SidechainActivationTableObject :=
  if 0 ≤ row then
    match model[row.toNat]? with
    | some object => .ok object
    | none => .error .indexOutOfRange
  else .error .indexOutOfRange

/-- `SidechainActivationTableModel::GetHashAtRow` (lines 236-249): the returned
flag and the value of the reference parameter `hash` after the call. -/
def GetHashAtRow (model : List SidechainActivationTableObject) (row : Int) (hash : uint256) :
    Except Fault (Bool × uint256) :=
  if row ≥ (model.length : Int) then .ok (false, hash)
  else
    match modelAt model row with
    | .error e => .error e
    | .ok object => .ok (true, object.hash)

/-- The ids held by a display list, in order. -/
def ids (model : List SidechainActivationTableObject) : List uint256 :=
  model.map (fun object => object.hash)

/-- The ids of a snapshot, in order. -/
def snapshotIds (vActivationStatus : List SidechainActivationStatus) : List uint256 :=
  vActivationStatus.map (fun s => s.proposal.GetSerHash)

/-- A sequence of timer ticks, each with the state of `scdb` at that tick,
starting from the display list `model`. -/
def runTicks : List SidechainDB → List SidechainActivationTableObject →
    Except Fault (List SidechainActivationTableObject)
  | [], model => .ok model
  | scdb :: rest, model =>
    match updateModel scdb model with
    | .error e => .error e
    | .ok v => runTicks rest v.1

/-! ## Test data -/

/-- A table object with the given id, age and failure count. -/
def mkObject (hash : uint256) (nAge nFail : Int) : SidechainActivationTableObject :=
  { fAck := false, nSidechain := 0, fReplacement := false, title := "", description := "",
    nAge := nAge, nFail := nFail, hash := hash }

/-- A snapshot entry with the given id, age and failure count. -/
def mkStatus (hash : uint256) (nAge nFail : Int) : SidechainActivationStatus :=
  { nAge := nAge, nFail := nFail,
    proposal := { nSidechain := 0, title := "", description := "", serHash := hash } }

/-- A database with the given snapshot, no ack and no active slot. -/
def mkDB (vActivationStatus : List SidechainActivationStatus) : SidechainDB :=
  { GetSidechainActivationStatus := vActivationStatus
    GetAckSidechain := fun _ => false
    IsSidechainActive := fun _ => false }

/-! ## The accessors `rowCount`, `columnCount` and `data` (lines 30-98) -/

/-- The values held by the `QVariant`s that `data` returns: the empty
`QVariant()`, a `bool`, or a string. -/
inductive QVariant where
  | invalid
  | bool (b : Bool)
  | string (s : String)
  deriving DecidableEq, Repr

/-- A `QModelIndex`: its row, its column and whether it refers to a model.
`isValid()` requires a non-negative row and column and a model. -/
structure QModelIndex where
  row : Int
  column : Int
  hasModel : Bool
  deriving DecidableEq, Repr

/-- The method `QModelIndex::isValid`. -/
def QModelIndex.isValid (index : QModelIndex) : Bool :=
  decide (0 ≤ index.row) && decide (0 ≤ index.column) && index.hasModel

/-- The value of `Qt::DisplayRole`. -/
def DisplayRole : Int := 0

/-- What `data` takes from outside of the source tree at hand: the three
constants of `sidechain.h`, and the text of the string a table object stores
for an id (`GetSerHash().ToString()`). -/
structure SidechainParams where
  SIDECHAIN_ACTIVATION_PERIOD : Int
  SIDECHAIN_REPLACEMENT_PERIOD : Int
  SIDECHAIN_ACTIVATION_MAX_FAILURES : Int
  hashText : uint256 → String

/-- `SidechainActivationTableModel::rowCount` (lines 30-33). -/
def rowCount (model : List SidechainActivationTableObject) : Int :=
  (model.length : Int)

/-- `SidechainActivationTableModel::columnCount` (lines 35-38). -/
def columnCount : Int := 8

/-- `SidechainActivationTableModel::data` (lines 40-98).  `model.at(row)`
needs a row inside the list; `QString::number` and `QString::arg` write an
integer in decimal. -/
def data (params : SidechainParams) (model : List SidechainActivationTableObject)
    (index : QModelIndex) (role : Int) : Except Fault QVariant :=
  if !index.isValid then .ok (.bool false)
  else
    let row := index.row
    let col := index.column
    match modelAt model row with
    | .error e => .error e
    | .ok object =>
      if role = DisplayRole then
        if col = 0 then .ok (.string (if object.fAck then "ACK" else "NACK"))
        else if col = 1 then .ok (.string (toString object.nSidechain))
        else if col = 2 then .ok (.bool object.fReplacement)
        else if col = 3 then .ok (.string object.title)
        else if col = 4 then .ok (.string object.description)
        else if col = 5 then
          .ok (.string (toString object.nAge ++ " / " ++
            toString (if object.fReplacement then params.SIDECHAIN_REPLACEMENT_PERIOD
              else params.SIDECHAIN_ACTIVATION_PERIOD)))
        else if col = 6 then
          .ok (.string (toString object.nFail ++ " / " ++
            toString params.SIDECHAIN_ACTIVATION_MAX_FAILURES))
        else if col = 7 then .ok (.string (params.hashText object.hash))
        else .ok .invalid
      else .ok .invalid

/-- Parameters for the examples: periods 100 and 200, at most 30 failures,
ids written in decimal. -/
def mkParams : SidechainParams :=
  { SIDECHAIN_ACTIVATION_PERIOD := 100
    SIDECHAIN_REPLACEMENT_PERIOD := 200
    SIDECHAIN_ACTIVATION_MAX_FAILURES := 30
    hashText := fun hash => toString hash }

/-! ## Notions used in the statements -/

/-- The number of stale records of a display list. -/
def staleCount (snap : List SidechainActivationStatus)
    (model : List SidechainActivationTableObject) : Nat :=
  model.countP (fun object => decide (object.hash ∉ snapshotIds snap))

/-- The observer of a display layer, after the words of the claim on
notifications: it keeps a list of ids and changes it on structural signals
only.  On `rowsRemoved first last` it deletes the elements at the indices
`first..last`, the later ones moving down; on `rowsInserted first last` it
inserts at index `first` the ids the model then holds in rows `first..last`
(`post` is the list of ids of the model after the pass). -/
def observerStep (post : List uint256) (seen : List uint256) : Signal → List uint256
  | .dataChanged _ => seen
  | .rowsRemoved first last => seen.take first ++ seen.drop (last + 1)
  | .rowsInserted first last =>
    seen.take first ++ (post.drop first).take (last + 1 - first) ++ seen.drop first

/-- The list of ids the observer holds after the signals `sigs`, in order. -/
def observerReplay (post : List uint256) (sigs : List Signal) (seen : List uint256) :
    List uint256 :=
  sigs.foldl (observerStep post) seen


/-- The record a row holds after the first loop. -/
def refresh (scdb : SidechainDB) (snap : List SidechainActivationStatus)
    (object : SidechainActivationTableObject) : SidechainActivationTableObject :=
  (scanRow scdb snap 0 object).object

/-- A record is stale when its id is absent from the snapshot. -/
def isStale (snap : List SidechainActivationStatus)
    (object : SidechainActivationTableObject) : Bool :=
  decide (object.hash ∉ snapshotIds snap)

/-- The snapshot entries whose id is not in the display list, in the order
of the snapshot. -/
def newEntries (model : List SidechainActivationTableObject)
    (snap : List SidechainActivationStatus) : List SidechainActivationStatus :=
  snap.filter (fun s => decide (s.proposal.GetSerHash ∉ ids model))

/-- A structural insertion signal. -/
def Signal.isInsert : Signal → Bool
  | .rowsInserted _ _ => true
  | _ => false

/-- A structural removal signal. -/
def Signal.isRemove : Signal → Bool
  | .rowsRemoved _ _ => true
  | _ => false

/-! ## The scan of the snapshot for one row -/

theorem scanStep_hash (scdb : SidechainDB) (i : Nat) (st : RowScan)
    (s : SidechainActivationStatus) :
    (scanStep scdb i st s).object.hash = st.object.hash := by
  unfold scanStep
  split <;> rfl

theorem scanFold_hash (scdb : SidechainDB) (i : Nat)
    (snap : List SidechainActivationStatus) (st : RowScan) :
    (snap.foldl (scanStep scdb i) st).object.hash = st.object.hash := by
  induction snap generalizing st with
  | nil => rfl
  | cons s rest ih => rw [List.foldl_cons, ih, scanStep_hash]

theorem scanStep_frame (scdb : SidechainDB) (i : Nat) (st : RowScan)
    (s : SidechainActivationStatus) :
    (scanStep scdb i st s).object.nSidechain = st.object.nSidechain ∧
    (scanStep scdb i st s).object.title = st.object.title ∧
    (scanStep scdb i st s).object.description = st.object.description := by
  unfold scanStep
  split <;> simp

theorem scanFold_frame (scdb : SidechainDB) (i : Nat)
    (snap : List SidechainActivationStatus) (st : RowScan) :
    (snap.foldl (scanStep scdb i) st).object.nSidechain = st.object.nSidechain ∧
    (snap.foldl (scanStep scdb i) st).object.title = st.object.title ∧
    (snap.foldl (scanStep scdb i) st).object.description = st.object.description := by
  induction snap generalizing st with
  | nil => exact ⟨rfl, rfl, rfl⟩
  | cons s rest ih =>
    rw [List.foldl_cons]
    obtain ⟨h1, h2, h3⟩ := ih (scanStep scdb i st s)
    obtain ⟨g1, g2, g3⟩ := scanStep_frame scdb i st s
    exact ⟨h1.trans g1, h2.trans g2, h3.trans g3⟩

/-- A scan that meets no entry with the id of the row leaves its state alone. -/
theorem scanFold_absent (scdb : SidechainDB) (i : Nat)
    (snap : List SidechainActivationStatus) (st : RowScan)
    (h : st.object.hash ∉ snapshotIds snap) :
    snap.foldl (scanStep scdb i) st = st := by
  induction snap generalizing st with
  | nil => rfl
  | cons s rest ih =>
    simp only [snapshotIds, List.map_cons, List.mem_cons, not_or] at h
    have hs : scanStep scdb i st s = st := by
      unfold scanStep
      rw [if_neg (fun e => h.1 e.symm)]
    rw [List.foldl_cons, hs]
    exact ih st h.2

/-- The flag `fFound` after the scan. -/
theorem scanFold_fFound (scdb : SidechainDB) (i : Nat)
    (snap : List SidechainActivationStatus) (st : RowScan) :
    (snap.foldl (scanStep scdb i) st).fFound =
      (st.fFound || decide (st.object.hash ∈ snapshotIds snap)) := by
  induction snap generalizing st with
  | nil => simp [snapshotIds]
  | cons s rest ih =>
    rw [List.foldl_cons, ih, scanStep_hash]
    unfold scanStep
    by_cases e : s.proposal.GetSerHash = st.object.hash
    · simp [snapshotIds, e]
    · have e2 : ¬ st.object.hash = s.proposal.GetSerHash := fun h => e h.symm
      simp [snapshotIds, e, e2]

/-- The record produced by the scan does not depend on the row index. -/
theorem scanFold_object_indep (scdb : SidechainDB) (i j : Nat)
    (snap : List SidechainActivationStatus) (st st2 : RowScan)
    (h : st.object = st2.object) :
    (snap.foldl (scanStep scdb i) st).object = (snap.foldl (scanStep scdb j) st2).object := by
  induction snap generalizing st st2 with
  | nil => exact h
  | cons s rest ih =>
    rw [List.foldl_cons, List.foldl_cons]
    apply ih
    unfold scanStep
    rw [h]
    split
    · rfl
    · exact h

/-- Every signal of a scan is a `dataChanged` of the row. -/
theorem scanFold_sigs (scdb : SidechainDB) (i : Nat)
    (snap : List SidechainActivationStatus) (st : RowScan) (sig : Signal)
    (h : sig ∈ (snap.foldl (scanStep scdb i) st).sigs) :
    sig ∈ st.sigs ∨ sig = Signal.dataChanged i := by
  induction snap generalizing st with
  | nil => exact Or.inl h
  | cons s rest ih =>
    rw [List.foldl_cons] at h
    rcases ih _ h with h1 | h1
    · unfold scanStep at h1
      split at h1
      · simp only [List.mem_append, List.mem_singleton] at h1
        exact h1
      · exact Or.inl h1
    · exact Or.inr h1

/-- With pairwise distinct snapshot ids, the scan copies the mutable fields
of the one entry that carries the id of the row. -/
theorem scanFold_fields (scdb : SidechainDB) (i : Nat)
    (snap : List SidechainActivationStatus) (st : RowScan)
    (hnd : (snapshotIds snap).Nodup) (s : SidechainActivationStatus) (hs : s ∈ snap)
    (hh : s.proposal.GetSerHash = st.object.hash) :
    (snap.foldl (scanStep scdb i) st).object.nAge = s.nAge ∧
    (snap.foldl (scanStep scdb i) st).object.nFail = s.nFail ∧
    (snap.foldl (scanStep scdb i) st).object.fAck = scdb.GetAckSidechain s.proposal.GetSerHash ∧
    (snap.foldl (scanStep scdb i) st).object.fReplacement =
      scdb.IsSidechainActive s.proposal.nSidechain := by
  induction snap generalizing st with
  | nil => cases hs
  | cons t rest ih =>
    simp only [snapshotIds, List.map_cons, List.nodup_cons] at hnd
    rw [List.foldl_cons]
    rcases List.mem_cons.mp hs with e | hmem
    · subst e
      have habs : (scanStep scdb i st s).object.hash ∉ snapshotIds rest := by
        rw [scanStep_hash, ← hh]
        exact hnd.1
      rw [scanFold_absent scdb i rest _ habs]
      unfold scanStep
      rw [if_pos hh]
      exact ⟨rfl, rfl, rfl, rfl⟩
    · exact ih (scanStep scdb i st t) hnd.2 hmem (by rw [scanStep_hash]; exact hh)

/-! ## The update pass -/

theorem scanRow_object (scdb : SidechainDB) (snap : List SidechainActivationStatus)
    (i : Nat) (o : SidechainActivationTableObject) :
    (scanRow scdb snap i o).object = refresh scdb snap o :=
  scanFold_object_indep scdb i 0 snap _ _ rfl

theorem scanRow_fFound (scdb : SidechainDB) (snap : List SidechainActivationStatus)
    (i : Nat) (o : SidechainActivationTableObject) :
    (scanRow scdb snap i o).fFound = !isStale snap o := by
  unfold scanRow isStale
  rw [scanFold_fFound]
  simp

theorem scanRow_sigs (scdb : SidechainDB) (snap : List SidechainActivationStatus)
    (i : Nat) (o : SidechainActivationTableObject) (sig : Signal)
    (h : sig ∈ (scanRow scdb snap i o).sigs) : sig = Signal.dataChanged i := by
  rcases scanFold_sigs scdb i snap _ sig h with h1 | h1
  · cases h1
  · exact h1

theorem refresh_hash (scdb : SidechainDB) (snap : List SidechainActivationStatus)
    (o : SidechainActivationTableObject) : (refresh scdb snap o).hash = o.hash :=
  scanFold_hash scdb 0 snap _

theorem refresh_stale (scdb : SidechainDB) (snap : List SidechainActivationStatus)
    (o : SidechainActivationTableObject) (h : isStale snap o = true) :
    refresh scdb snap o = o := by
  unfold refresh scanRow
  rw [scanFold_absent]
  simpa [isStale] using h

/-- The state of the first loop after `k` iterations. -/
theorem updatePass_prefix (scdb : SidechainDB) (snap : List SidechainActivationStatus)
    (model : List SidechainActivationTableObject) (k : Nat) (hk : k ≤ model.length) :
    ((List.range k).foldl (updateStep scdb snap)
        { model := model, vRemoved := [], sigs := [] }).model =
      (model.take k).map (refresh scdb snap) ++ model.drop k ∧
    ((List.range k).foldl (updateStep scdb snap)
        { model := model, vRemoved := [], sigs := [] }).vRemoved =
      (model.take k).filter (isStale snap) ∧
    ∀ sig ∈ ((List.range k).foldl (updateStep scdb snap)
        { model := model, vRemoved := [], sigs := [] }).sigs, ∃ i, sig = Signal.dataChanged i := by
  induction k with
  | zero => simp
  | succ k ih =>
    have hk2 : k < model.length := hk
    obtain ⟨h1, h2, h3⟩ := ih (Nat.le_of_lt hk2)
    rw [List.range_succ, List.foldl_append, List.foldl_cons, List.foldl_nil]
    generalize (List.range k).foldl (updateStep scdb snap)
        { model := model, vRemoved := [], sigs := [] } = st at h1 h2 h3
    have hlen : ((model.take k).map (refresh scdb snap)).length = k := by
      simp [Nat.min_eq_left (Nat.le_of_lt hk2)]
    have hget : st.model[k]? = some model[k] := by
      rw [h1, List.getElem?_append_right (by omega), hlen]
      simp [hk2]
    have htake : model.take (k + 1) = model.take k ++ [model[k]] := by
      rw [List.take_succ, List.getElem?_eq_getElem hk2]
      rfl
    unfold updateStep
    rw [hget]
    simp only
    rw [scanRow_object, scanRow_fFound]
    refine ⟨?_, ?_, ?_⟩
    · rw [h1, List.set_append_right _ _ (by omega), hlen, htake, List.map_append,
        List.append_assoc]
      congr 1
      rw [List.drop_eq_getElem_cons hk2, Nat.sub_self, List.set_cons_zero]
      rfl
    · rw [h2, htake, List.filter_append]
      by_cases hs : isStale snap model[k] = true
      · simp [hs, refresh_stale scdb snap _ hs]
      · simp [hs]
    · intro sig hsig
      rcases List.mem_append.mp hsig with h | h
      · exact h3 sig h
      · exact ⟨k, scanRow_sigs scdb snap k _ sig h⟩

/-- The first loop refreshes every row in place, collects the stale records
and emits `dataChanged` signals only. -/
theorem updatePass_spec (scdb : SidechainDB) (snap : List SidechainActivationStatus)
    (model : List SidechainActivationTableObject) :
    (updatePass scdb snap model).model = model.map (refresh scdb snap) ∧
    (updatePass scdb snap model).vRemoved = model.filter (isStale snap) ∧
    ∀ sig ∈ (updatePass scdb snap model).sigs, ∃ i, sig = Signal.dataChanged i := by
  have h := updatePass_prefix scdb snap model model.length (Nat.le_refl _)
  simpa [updatePass] using h

/-! ## Removing one row -/

theorem removeRow_ok (i : Nat) (m : List SidechainActivationTableObject)
    (h : i < m.length) : ∃ m2, removeRow i m = .ok m2 := by
  unfold removeRow
  cases hl : m.getLast? with
  | none =>
    rw [List.getLast?_eq_none_iff] at hl
    subst hl
    simp at h
  | some last => exact ⟨(m.set i last).dropLast, by simp [h]⟩

/-- What `model[i] = model.back(); model.pop_back();` does to the list: it
gets one shorter, row `i` receives the former last record, the other rows
stay. -/
theorem removeRow_spec (i : Nat) (m m2 : List SidechainActivationTableObject)
    (h : removeRow i m = .ok m2) :
    i < m.length ∧ m2.length + 1 = m.length ∧
      ∀ j, j < m2.length → m2[j]? = if j = i then m[m2.length]? else m[j]? := by
  unfold removeRow at h
  cases hl : m.getLast? with
  | none => rw [hl] at h; cases h
  | some last =>
    rw [hl] at h
    simp only at h
    split at h
    · rename_i hi
      injection h with h
      subst h
      have hlen : ((m.set i last).dropLast).length + 1 = m.length := by
        rw [List.length_dropLast, List.length_set]
        omega
      refine ⟨hi, hlen, ?_⟩
      intro j hj
      have hlen2 : ((m.set i last).dropLast).length = m.length - 1 := by omega
      rw [hlen2] at hj ⊢
      rw [List.getElem?_dropLast, List.length_set, if_pos hj, List.getElem?_set]
      rw [List.getLast?_eq_getElem?] at hl
      by_cases hji : j = i
      · subst hji
        simp [hi, hl]
      · have : ¬ i = j := fun e => hji e.symm
        simp [hji, this]
    · cases h

theorem removeRow_mem (i : Nat) (m m2 : List SidechainActivationTableObject)
    (h : removeRow i m = .ok m2) (o : SidechainActivationTableObject) (ho : o ∈ m2) :
    o ∈ m := by
  obtain ⟨_, _, hget⟩ := removeRow_spec i m m2 h
  obtain ⟨j, hj⟩ := List.mem_iff_getElem?.mp ho
  have hjl : j < m2.length := by
    rcases List.getElem?_eq_some_iff.mp hj with ⟨hlt, _⟩
    exact hlt
  rw [hget j hjl] at hj
  split at hj
  · exact List.mem_iff_getElem?.mpr ⟨_, hj⟩
  · exact List.mem_iff_getElem?.mpr ⟨_, hj⟩

/-- Every record except the one of row `i` is still in the list. -/
theorem removeRow_keep (i : Nat) (m m2 : List SidechainActivationTableObject)
    (h : removeRow i m = .ok m2) (o : SidechainActivationTableObject) (ho : o ∈ m) :
    o ∈ m2 ∨ m[i]? = some o := by
  obtain ⟨hi, hlen, hget⟩ := removeRow_spec i m m2 h
  obtain ⟨j, hj⟩ := List.mem_iff_getElem?.mp ho
  have hjl : j < m.length := by
    rcases List.getElem?_eq_some_iff.mp hj with ⟨hlt, _⟩
    exact hlt
  by_cases hji : j = i
  · subst hji
    exact Or.inr hj
  · left
    by_cases hlast : j = m2.length
    · have hi2 : i < m2.length := by omega
      have := hget i hi2
      rw [if_pos rfl, ← hlast, hj] at this
      exact List.mem_iff_getElem?.mpr ⟨i, this⟩
    · have hj2 : j < m2.length := by omega
      have := hget j hj2
      rw [if_neg hji, hj] at this
      exact List.mem_iff_getElem?.mpr ⟨j, this⟩

theorem removeRow_nodup (i : Nat) (m m2 : List SidechainActivationTableObject)
    (h : removeRow i m = .ok m2) (hnd : (ids m).Nodup) : (ids m2).Nodup := by
  obtain ⟨hi, hlen, hget⟩ := removeRow_spec i m m2 h
  rw [List.nodup_iff_getElem?_ne_getElem?] at hnd ⊢
  have hidlen : ∀ l : List SidechainActivationTableObject, (ids l).length = l.length := by
    intro l; simp [ids]
  intro a b hab hb
  rw [hidlen] at hb
  have ha : a < m2.length := by omega
  unfold ids
  rw [List.getElem?_map, List.getElem?_map, hget a ha, hget b hb]
  have key : ∀ x y, x ≠ y → x < m.length → y < m.length → (ids m)[x]? ≠ (ids m)[y]? := by
    intro x y hxy hx hy
    rcases Nat.lt_or_gt_of_ne hxy with hlt | hgt
    · exact hnd x y hlt (by rw [hidlen]; exact hy)
    · exact fun e => hnd y x hgt (by rw [hidlen]; exact hx) e.symm
  have := key
  unfold ids at this
  by_cases hai : a = i
  · have hbi : ¬ b = i := by omega
    rw [if_pos hai, if_neg hbi, ← List.getElem?_map, ← List.getElem?_map]
    exact this _ _ (by omega) (by omega) (by omega)
  · by_cases hbi : b = i
    · rw [if_neg hai, if_pos hbi, ← List.getElem?_map, ← List.getElem?_map]
      exact this _ _ (by omega) (by omega) (by omega)
    · rw [if_neg hai, if_neg hbi, ← List.getElem?_map, ← List.getElem?_map]
      exact this _ _ (by omega) (by omega) (by omega)

/-! ## The removal loop -/

/-- A property kept by every single removal at row `i` is kept by the scan of
`vRemoved` for that row. -/
theorem removeScan_induct (i : Nat) (object : SidechainActivationTableObject)
    (P : View → Prop)
    (hrow : ∀ (v : View) (m : List SidechainActivationTableObject), P v →
      removeRow i v.1 = .ok m → P (m, v.2 ++ [Signal.rowsRemoved i i]))
    (vR : List SidechainActivationTableObject) (v v2 : View) (hP : P v)
    (h : removeScan i object vR v = .ok v2) : P v2 := by
  induction vR generalizing v with
  | nil =>
    simp only [removeScan] at h
    injection h with h
    exact h ▸ hP
  | cons s rest ih =>
    simp only [removeScan] at h
    split at h
    · cases hr : removeRow i v.1 with
      | error e => rw [hr] at h; cases h
      | ok m =>
        rw [hr] at h
        exact ih _ (hrow v m hP hr) h
    · exact ih v hP h

/-- A property that survives the step to the next row and every single removal
holds, for some row index, of the state the loop ends in. -/
theorem removalLoop_induct (vR : List SidechainActivationTableObject)
    (P : Nat → View → Prop)
    (hweak : ∀ i v, P i v → P (i + 1) v)
    (hrow : ∀ (i : Nat) (v : View) (m : List SidechainActivationTableObject), P (i + 1) v →
      removeRow i v.1 = .ok m → P (i + 1) (m, v.2 ++ [Signal.rowsRemoved i i]))
    (fuel i : Nat) (v v2 : View) (hP : P i v)
    (h : removalLoop vR fuel i v = .ok v2) : ∃ k, P k v2 := by
  induction fuel generalizing i v with
  | zero =>
    simp only [removalLoop] at h
    split at h
    · cases h
    · injection h with h
      exact ⟨i, h ▸ hP⟩
  | succ fuel ih =>
    simp only [removalLoop] at h
    cases hget : v.1[i]? with
    | none =>
      rw [hget] at h
      injection h with h
      exact ⟨i, h ▸ hP⟩
    | some object =>
      rw [hget] at h
      simp only at h
      cases hs : removeScan i object vR v with
      | error e => rw [hs] at h; cases h
      | ok w =>
        rw [hs] at h
        have hw : P (i + 1) w :=
          removeScan_induct i object (P (i + 1)) (hrow i) vR v w (hweak i v hP) hs
        exact ih (i + 1) w hw h

theorem removeScan_absent (i : Nat) (object : SidechainActivationTableObject)
    (vR : List SidechainActivationTableObject) (v : View)
    (h : object.hash ∉ ids vR) : removeScan i object vR v = .ok v := by
  induction vR with
  | nil => rfl
  | cons s rest ih =>
    simp only [ids, List.map_cons, List.mem_cons, not_or] at h
    simp only [removeScan]
    rw [if_neg (fun e => h.1 e.symm)]
    exact ih h.2

/-- With pairwise distinct ids in `vRemoved`, a row whose id is in `vRemoved`
is removed exactly once. -/
theorem removeScan_nodup (i : Nat) (object : SidechainActivationTableObject)
    (vR : List SidechainActivationTableObject) (v : View)
    (hnd : (ids vR).Nodup) (h : object.hash ∈ ids vR) :
    removeScan i object vR v =
      match removeRow i v.1 with
      | .error e => .error e
      | .ok m => .ok (m, v.2 ++ [Signal.rowsRemoved i i]) := by
  induction vR with
  | nil => simp [ids] at h
  | cons s rest ih =>
    simp only [ids, List.map_cons, List.nodup_cons] at hnd
    simp only [ids, List.map_cons, List.mem_cons] at h
    simp only [removeScan]
    by_cases e : s.hash = object.hash
    · rw [if_pos e]
      cases hr : removeRow i v.1 with
      | error e2 => rfl
      | ok m =>
        simp only
        apply removeScan_absent
        rw [← e]
        exact hnd.1
    · rw [if_neg e]
      rcases h with h | h
      · exact absurd h.symm e
      · exact ih hnd.2 h

/-- With pairwise distinct ids in `vRemoved` the loop reads no row out of
range, and `fuel` iterations are enough when `fuel` is at least the number of
rows from `i` on. -/
theorem removalLoop_total (vR : List SidechainActivationTableObject)
    (hnd : (ids vR).Nodup) (fuel i : Nat) (v : View) (hf : v.1.length ≤ i + fuel) :
    ∃ v2, removalLoop vR fuel i v = .ok v2 := by
  induction fuel generalizing i v with
  | zero =>
    simp only [removalLoop]
    rw [if_neg (by omega)]
    exact ⟨v, rfl⟩
  | succ fuel ih =>
    simp only [removalLoop]
    cases hget : v.1[i]? with
    | none => exact ⟨v, rfl⟩
    | some object =>
      simp only
      have hi : i < v.1.length := by
        rcases List.getElem?_eq_some_iff.mp hget with ⟨hlt, _⟩
        exact hlt
      by_cases hm : object.hash ∈ ids vR
      · rw [removeScan_nodup i object vR v hnd hm]
        obtain ⟨m, hr⟩ := removeRow_ok i v.1 hi
        rw [hr]
        simp only
        obtain ⟨_, hlen, _⟩ := removeRow_spec i v.1 m hr
        exact ih (i + 1) _ (by simp only; omega)
      · rw [removeScan_absent i object vR v hm]
        simp only
        exact ih (i + 1) v (by omega)

/-- With pairwise distinct ids in `vRemoved`, a property kept by the removal
of a row whose id is in `vRemoved` is kept by the loop. -/
theorem removalLoop_nodup_induct (vR : List SidechainActivationTableObject)
    (hnd : (ids vR).Nodup) (P : View → Prop)
    (hrow : ∀ (i : Nat) (v : View) (m : List SidechainActivationTableObject)
      (o : SidechainActivationTableObject), P v → v.1[i]? = some o → o.hash ∈ ids vR →
      removeRow i v.1 = .ok m → P (m, v.2 ++ [Signal.rowsRemoved i i]))
    (fuel i : Nat) (v v2 : View) (hP : P v)
    (h : removalLoop vR fuel i v = .ok v2) : P v2 := by
  induction fuel generalizing i v with
  | zero =>
    simp only [removalLoop] at h
    split at h
    · cases h
    · injection h with h
      exact h ▸ hP
  | succ fuel ih =>
    simp only [removalLoop] at h
    cases hget : v.1[i]? with
    | none =>
      rw [hget] at h
      injection h with h
      exact h ▸ hP
    | some object =>
      rw [hget] at h
      simp only at h
      by_cases hm : object.hash ∈ ids vR
      · rw [removeScan_nodup i object vR v hnd hm] at h
        cases hr : removeRow i v.1 with
        | error e => rw [hr] at h; cases h
        | ok m =>
          rw [hr] at h
          simp only at h
          exact ih (i + 1) _ (hrow i v m object hP hget hm hr) h
      · rw [removeScan_absent i object vR v hm] at h
        simp only at h
        exact ih (i + 1) v hP h

theorem removeRow_error (i : Nat) (m : List SidechainActivationTableObject) (e : Fault)
    (h : removeRow i m = .error e) : e = .indexOutOfRange := by
  unfold removeRow at h
  split at h
  · injection h with h
    exact h.symm
  · split at h
    · cases h
    · injection h with h
      exact h.symm

theorem removeScan_error (i : Nat) (object : SidechainActivationTableObject)
    (vR : List SidechainActivationTableObject) (v : View) (e : Fault)
    (h : removeScan i object vR v = .error e) : e = .indexOutOfRange := by
  induction vR generalizing v with
  | nil => simp only [removeScan] at h; cases h
  | cons s rest ih =>
    simp only [removeScan] at h
    split at h
    · cases hr : removeRow i v.1 with
      | error e2 =>
        rw [hr] at h
        injection h with h
        exact h ▸ removeRow_error i v.1 e2 hr
      | ok m =>
        rw [hr] at h
        exact ih _ h
    · exact ih v h

/-- The fuel never runs out when it is at least the number of rows from `i`
on: the only fault the loop can end in is a read outside of the list. -/
theorem removalLoop_fuel (vR : List SidechainActivationTableObject) (fuel i : Nat)
    (v : View) (hf : v.1.length ≤ i + fuel) :
    removalLoop vR fuel i v ≠ .error .outOfFuel := by
  induction fuel generalizing i v with
  | zero =>
    simp only [removalLoop]
    rw [if_neg (by omega)]
    exact fun h => by cases h
  | succ fuel ih =>
    simp only [removalLoop]
    cases hget : v.1[i]? with
    | none => exact fun h => by cases h
    | some object =>
      simp only
      cases hs : removeScan i object vR v with
      | error e =>
        have := removeScan_error i object vR v e hs
        subst this
        exact fun h => by cases h
      | ok w =>
        simp only
        have hlen : w.1.length ≤ v.1.length :=
          removeScan_induct i object (fun x => x.1.length ≤ v.1.length)
            (fun x m hx hr => by
              have := (removeRow_spec i x.1 m hr).2.1
              simp only
              omega)
            vR v w (Nat.le_refl _) hs
        exact ih (i + 1) w (by omega)

/-- When no record of the list has its id in `vRemoved`, the loop changes
nothing and emits nothing. -/
theorem removalLoop_nothing (vR : List SidechainActivationTableObject)
    (fuel i : Nat) (v v2 : View) (hno : ∀ o ∈ v.1, o.hash ∉ ids vR)
    (h : removalLoop vR fuel i v = .ok v2) : v2 = v := by
  induction fuel generalizing i with
  | zero =>
    simp only [removalLoop] at h
    split at h
    · cases h
    · injection h with h
      exact h.symm
  | succ fuel ih =>
    simp only [removalLoop] at h
    cases hget : v.1[i]? with
    | none =>
      rw [hget] at h
      injection h with h
      exact h.symm
    | some object =>
      rw [hget] at h
      simp only at h
      have hm : object.hash ∉ ids vR := hno object (List.mem_iff_getElem?.mpr ⟨i, hget⟩)
      rw [removeScan_absent i object vR v hm] at h
      exact ih (i + 1) h

theorem removalLoop_mem (vR : List SidechainActivationTableObject) (fuel i : Nat)
    (v v2 : View) (h : removalLoop vR fuel i v = .ok v2)
    (o : SidechainActivationTableObject) (ho : o ∈ v2.1) : o ∈ v.1 := by
  obtain ⟨_, hk⟩ := removalLoop_induct vR (fun _ w => ∀ o ∈ w.1, o ∈ v.1)
    (fun _ _ hw => hw)
    (fun i w m hw hr o ho => hw o (removeRow_mem i w.1 m hr o ho))
    fuel i v v2 (fun _ ho => ho) h
  exact hk o ho

/-- The loop appends `rowsRemoved` signals of single rows only. -/
theorem removalLoop_sigs (vR : List SidechainActivationTableObject) (fuel i : Nat)
    (v v2 : View) (h : removalLoop vR fuel i v = .ok v2) :
    ∃ extra, v2.2 = v.2 ++ extra ∧ ∀ sig ∈ extra, ∃ a, sig = Signal.rowsRemoved a a := by
  obtain ⟨_, hk⟩ := removalLoop_induct vR
    (fun _ w => ∃ extra, w.2 = v.2 ++ extra ∧ ∀ sig ∈ extra, ∃ a, sig = Signal.rowsRemoved a a)
    (fun _ _ hw => hw)
    (fun i w m hw _ => by
      obtain ⟨extra, he, hall⟩ := hw
      refine ⟨extra ++ [Signal.rowsRemoved i i], ?_, ?_⟩
      · simp only [he, List.append_assoc]
      · intro sig hsig
        rcases List.mem_append.mp hsig with h1 | h1
        · exact hall sig h1
        · exact ⟨i, List.mem_singleton.mp h1⟩)
    fuel i v v2 ⟨[], by simp, by simp⟩ h
  exact hk

theorem removalLoop_nodup_ids (vR : List SidechainActivationTableObject) (fuel i : Nat)
    (v v2 : View) (h : removalLoop vR fuel i v = .ok v2) (hnd : (ids v.1).Nodup) :
    (ids v2.1).Nodup := by
  obtain ⟨_, hk⟩ := removalLoop_induct vR (fun _ w => (ids w.1).Nodup)
    (fun _ _ hw => hw)
    (fun i w m hw hr => removeRow_nodup i w.1 m hr hw)
    fuel i v v2 hnd h
  exact hk

/-- With pairwise distinct ids in the list and in `vRemoved`, the loop deletes
no record whose id is outside `vRemoved`. -/
theorem removalLoop_keep (vR : List SidechainActivationTableObject)
    (hnd : (ids vR).Nodup) (fuel i : Nat) (v v2 : View)
    (h : removalLoop vR fuel i v = .ok v2)
    (o : SidechainActivationTableObject) (ho : o ∈ v.1) (hs : o.hash ∉ ids vR) :
    o ∈ v2.1 := by
  have := removalLoop_nodup_induct vR hnd (fun w => o ∈ w.1)
    (fun i w m x hw hx hxR hr => by
      rcases removeRow_keep i w.1 m hr o hw with h1 | h1
      · exact h1
      · rw [hx] at h1
        injection h1 with h1
        subst h1
        exact absurd hxR hs)
    fuel i v v2 ho h
  exact this

/-- Rows of the list the loop ends with, against the list `m0` it started
from: a row either holds the record it held at the start, or a record that
was, at the start, at an index beyond the final size. -/
theorem removalLoop_rows (vR : List SidechainActivationTableObject) (fuel : Nat)
    (v v2 : View) (h : removalLoop vR fuel 0 v = .ok v2) :
    ∀ j, j < v2.1.length → v2.1[j]? = v.1[j]? ∨ ∃ k, v2.1.length ≤ k ∧ v2.1[j]? = v.1[k]? := by
  obtain ⟨k, hk1, hk2⟩ := removalLoop_induct vR
    (fun i w => (∀ j, i ≤ j → j < w.1.length → w.1[j]? = v.1[j]?) ∧
      (∀ j, j < i → j < w.1.length →
        w.1[j]? = v.1[j]? ∨ ∃ k, w.1.length ≤ k ∧ w.1[j]? = v.1[k]?))
    (fun i w hw => by
      refine ⟨fun j hij hj => hw.1 j (by omega) hj, fun j hij hj => ?_⟩
      by_cases hji : j = i
      · exact Or.inl (hw.1 j (by omega) hj)
      · exact hw.2 j (by omega) hj)
    (fun i w m hw hr => by
      obtain ⟨hi, hlen, hget⟩ := removeRow_spec i w.1 m hr
      refine ⟨fun j hij hj => ?_, fun j hij hj => ?_⟩
      · simp only at hj ⊢
        rw [hget j hj, if_neg (by omega)]
        exact hw.1 j hij (by omega)
      · simp only at hj ⊢
        rw [hget j hj]
        by_cases hji : j = i
        · rw [if_pos hji]
          right
          exact ⟨m.length, Nat.le_refl _, hw.1 m.length (by omega) (by omega)⟩
        · rw [if_neg hji]
          rcases hw.2 j (by omega) (by omega) with h1 | ⟨k, hk, h1⟩
          · exact Or.inl h1
          · exact Or.inr ⟨k, by omega, h1⟩)
    fuel 0 v v2 ⟨fun _ _ _ => rfl, fun j hj _ => absurd hj (Nat.not_lt_zero j)⟩ h
  intro j hj
  by_cases hjk : j < k
  · exact hk2 j hjk hj
  · exact Or.inl (hk1 j (by omega) hj)

/-! ## The insertion pass -/

theorem foundInModel_eq (model : List SidechainActivationTableObject)
    (s : SidechainActivationStatus) :
    foundInModel model s = decide (s.proposal.GetSerHash ∈ ids model) := by
  unfold foundInModel
  have key : ∀ (l : List SidechainActivationTableObject) (b : Bool),
      l.foldl (fun fFound object =>
        if s.proposal.GetSerHash = object.hash then true else fFound) b =
        (b || decide (s.proposal.GetSerHash ∈ ids l)) := by
    intro l
    induction l with
    | nil => intro b; simp [ids]
    | cons o rest ih =>
      intro b
      rw [List.foldl_cons, ih]
      by_cases e : s.proposal.GetSerHash = o.hash
      · simp [ids, e]
      · simp [ids, e]
  rw [key]
  simp

theorem collectNew_eq (model : List SidechainActivationTableObject)
    (snap : List SidechainActivationStatus) :
    collectNew model snap = newEntries model snap := by
  unfold collectNew newEntries
  have key : ∀ (l acc : List SidechainActivationStatus),
      l.foldl (fun vNew s => if foundInModel model s then vNew else vNew ++ [s]) acc =
        acc ++ l.filter (fun s => decide (s.proposal.GetSerHash ∉ ids model)) := by
    intro l
    induction l with
    | nil => intro acc; simp
    | cons s rest ih =>
      intro acc
      rw [List.foldl_cons, ih, foundInModel_eq]
      by_cases e : s.proposal.GetSerHash ∈ ids model
      · simp [e]
      · simp [e]
  rw [key]
  simp

theorem appendFold_eq (scdb : SidechainDB) (vNew : List SidechainActivationStatus)
    (model : List SidechainActivationTableObject) :
    vNew.foldl (fun model s => model ++ [newObject scdb s]) model =
      model ++ vNew.map (newObject scdb) := by
  induction vNew generalizing model with
  | nil => simp
  | cons s rest ih => rw [List.foldl_cons, ih]; simp

theorem insertNew_model (scdb : SidechainDB) (vNew : List SidechainActivationStatus)
    (v : View) : (insertNew scdb vNew v).1 = v.1 ++ vNew.map (newObject scdb) := by
  unfold insertNew
  cases vNew with
  | nil => simp
  | cons s rest =>
    simp only [List.isEmpty_cons, Bool.false_eq_true, if_false]
    exact appendFold_eq scdb (s :: rest) v.1

theorem insertNew_sigs (scdb : SidechainDB) (vNew : List SidechainActivationStatus)
    (v : View) :
    (insertNew scdb vNew v).2 =
      if vNew.length = 0 then v.2
      else v.2 ++ [Signal.rowsInserted v.1.length (v.1.length + vNew.length - 1)] := by
  unfold insertNew
  cases vNew with
  | nil => simp
  | cons s rest => simp

/-! ## The whole pass -/

theorem ids_refresh (scdb : SidechainDB) (snap : List SidechainActivationStatus)
    (model : List SidechainActivationTableObject) :
    ids (model.map (refresh scdb snap)) = ids model := by
  unfold ids
  rw [List.map_map]
  apply List.map_congr_left
  intro o _
  exact refresh_hash scdb snap o

theorem ids_stale_nodup (snap : List SidechainActivationStatus)
    (model : List SidechainActivationTableObject) (hnd : (ids model).Nodup) :
    (ids (model.filter (isStale snap))).Nodup :=
  List.Nodup.sublist ((List.filter_sublist model).map _) hnd

theorem ids_stale_absent (snap : List SidechainActivationStatus)
    (model : List SidechainActivationTableObject) (X : uint256)
    (h : X ∈ ids (model.filter (isStale snap))) : X ∉ snapshotIds snap := by
  unfold ids at h
  obtain ⟨o, ho, rfl⟩ := List.mem_map.mp h
  have := (List.mem_filter.mp ho).2
  simpa [isStale] using this

/-- The first two loops: the removal loop runs on the refreshed rows, with the
stale records as `vRemoved`, after `dataChanged` signals only. -/
theorem removalPass_eq (scdb : SidechainDB) (model : List SidechainActivationTableObject) :
    ∃ sigs1, (∀ sig ∈ sigs1, ∃ i, sig = Signal.dataChanged i) ∧
      removalPass scdb model =
        removalLoop (model.filter (isStale scdb.GetSidechainActivationStatus)) model.length 0
          (model.map (refresh scdb scdb.GetSidechainActivationStatus), sigs1) := by
  obtain ⟨h1, h2, h3⟩ := updatePass_spec scdb scdb.GetSidechainActivationStatus model
  refine ⟨_, h3, ?_⟩
  unfold removalPass
  simp only
  rw [h1, h2, List.length_map]

theorem removalPass_total (scdb : SidechainDB) (model : List SidechainActivationTableObject)
    (hnd : (ids model).Nodup) : ∃ v2, removalPass scdb model = .ok v2 := by
  obtain ⟨sigs1, _, he⟩ := removalPass_eq scdb model
  rw [he]
  apply removalLoop_total _ (ids_stale_nodup _ model hnd)
  simp

theorem updateModel_eq (scdb : SidechainDB) (model : List SidechainActivationTableObject)
    (v : View) (h : updateModel scdb model = .ok v) :
    ∃ v2, removalPass scdb model = .ok v2 ∧
      v = insertNew scdb (newEntries v2.1 scdb.GetSidechainActivationStatus) v2 := by
  unfold updateModel at h
  cases hr : removalPass scdb model with
  | error e => rw [hr] at h; cases h
  | ok v2 =>
    rw [hr] at h
    simp only at h
    injection h with h
    exact ⟨v2, rfl, by rw [← h, collectNew_eq]⟩

/-- On no display list does a pass run out of fuel. -/
theorem updateModel_fuel (scdb : SidechainDB) (model : List SidechainActivationTableObject) :
    updateModel scdb model ≠ .error .outOfFuel := by
  obtain ⟨sigs1, _, he⟩ := removalPass_eq scdb model
  have hne := removalLoop_fuel (model.filter (isStale scdb.GetSidechainActivationStatus))
    model.length 0 (model.map (refresh scdb scdb.GetSidechainActivationStatus), sigs1)
    (by simp)
  rw [← he] at hne
  unfold updateModel
  cases hr : removalPass scdb model with
  | error e =>
    simp only
    intro h
    injection h with h
    exact hne (by rw [hr, h])
  | ok v2 => exact fun h => by cases h

/-- A pass on a display list with pairwise distinct ids ends without fault. -/
theorem updateModel_total (scdb : SidechainDB) (model : List SidechainActivationTableObject)
    (hnd : (ids model).Nodup) : ∃ v, updateModel scdb model = .ok v := by
  obtain ⟨v2, hr⟩ := removalPass_total scdb model hnd
  unfold updateModel
  rw [hr]
  exact ⟨_, rfl⟩

theorem ids_newEntries (scdb : SidechainDB) (model : List SidechainActivationTableObject)
    (snap : List SidechainActivationStatus) :
    ids ((newEntries model snap).map (newObject scdb)) = snapshotIds (newEntries model snap) := by
  unfold ids snapshotIds
  rw [List.map_map]
  rfl

/-- One pass keeps the ids pairwise distinct when the snapshot ids are. -/
theorem updateModel_nodup (scdb : SidechainDB) (model : List SidechainActivationTableObject)
    (v : View) (h : updateModel scdb model = .ok v) (hnd : (ids model).Nodup)
    (hsnap : (snapshotIds scdb.GetSidechainActivationStatus).Nodup) : (ids v.1).Nodup := by
  obtain ⟨v2, hr, hv⟩ := updateModel_eq scdb model v h
  obtain ⟨sigs1, _, he⟩ := removalPass_eq scdb model
  rw [he] at hr
  have hnd2 : (ids v2.1).Nodup :=
    removalLoop_nodup_ids _ _ _ _ v2 hr (by rw [ids_refresh]; exact hnd)
  rw [hv, insertNew_model]
  unfold ids
  rw [List.map_append]
  rw [List.nodup_append]
  refine ⟨hnd2, ?_, ?_⟩
  · have := ids_newEntries scdb v2.1 scdb.GetSidechainActivationStatus
    unfold ids at this
    rw [this]
    exact List.Nodup.sublist ((List.filter_sublist _).map _) hsnap
  · intro X hX1 hX2
    have := ids_newEntries scdb v2.1 scdb.GetSidechainActivationStatus
    unfold ids at this
    rw [this] at hX2
    unfold snapshotIds newEntries at hX2
    obtain ⟨s, hs, rfl⟩ := List.mem_map.mp hX2
    have := (List.mem_filter.mp hs).2
    simp only [decide_eq_true_eq] at this
    exact this hX1

theorem runTicks_nodup (ticks : List SidechainDB)
    (h : ∀ scdb ∈ ticks, (snapshotIds scdb.GetSidechainActivationStatus).Nodup)
    (model : List SidechainActivationTableObject) (hnd : (ids model).Nodup) :
    ∃ model2, runTicks ticks model = .ok model2 ∧ (ids model2).Nodup := by
  induction ticks generalizing model with
  | nil => exact ⟨model, rfl, hnd⟩
  | cons scdb rest ih =>
    obtain ⟨v, hv⟩ := updateModel_total scdb model hnd
    have hv2 := updateModel_nodup scdb model v hv hnd (h scdb (List.mem_cons_self _ _))
    obtain ⟨model2, hm, hm2⟩ := ih (fun d hd => h d (List.mem_cons_of_mem _ hd)) v.1 hv2
    refine ⟨model2, ?_, hm2⟩
    simp only [runTicks]
    rw [hv]
    exact hm

theorem indexOf_of_getElem_some (l : List uint256) (hnd : l.Nodup) (q : Nat) (X : uint256)
    (h : l[q]? = some X) : l.indexOf X = q := by
  obtain ⟨hq, e⟩ := List.getElem?_eq_some_iff.mp h
  subst e
  exact List.indexOf_getElem hnd q hq

theorem ids_getElem_opt (l : List SidechainActivationTableObject) (j : Nat) :
    (ids l)[j]? = (l[j]?).map (fun object => object.hash) := by
  unfold ids
  rw [List.getElem?_map]

/-- With pairwise distinct ids, a record whose id is in the snapshot is still
in the list after the removal loop. -/
theorem removalPass_keeps_fresh (scdb : SidechainDB)
    (model : List SidechainActivationTableObject) (hnd : (ids model).Nodup)
    (v2 : View) (hr : removalPass scdb model = .ok v2) (X : uint256)
    (hX : X ∈ ids model) (hs : X ∈ snapshotIds scdb.GetSidechainActivationStatus) :
    X ∈ ids v2.1 := by
  obtain ⟨sigs1, _, he⟩ := removalPass_eq scdb model
  rw [he] at hr
  unfold ids at hX
  obtain ⟨o, ho, rfl⟩ := List.mem_map.mp hX
  have hmem : refresh scdb scdb.GetSidechainActivationStatus o ∈
      model.map (refresh scdb scdb.GetSidechainActivationStatus) := List.mem_map_of_mem _ ho
  have hfresh : (refresh scdb scdb.GetSidechainActivationStatus o).hash ∉
      ids (model.filter (isStale scdb.GetSidechainActivationStatus)) := by
    intro hc
    rw [refresh_hash] at hc
    exact ids_stale_absent _ model _ hc hs
  have := removalLoop_keep _ (ids_stale_nodup _ model hnd) _ _ _ v2 hr _ hmem hfresh
  have h2 := List.mem_map_of_mem (fun object => object.hash) this
  simp only [refresh_hash] at h2
  exact h2

/-- The first two loops emit no insertion signal. -/
theorem removalPass_no_insert (scdb : SidechainDB)
    (model : List SidechainActivationTableObject) (v2 : View)
    (hr : removalPass scdb model = .ok v2) : v2.2.filter Signal.isInsert = [] := by
  obtain ⟨sigs1, h1, he⟩ := removalPass_eq scdb model
  rw [he] at hr
  obtain ⟨extra, hx, h2⟩ := removalLoop_sigs _ _ _ _ v2 hr
  rw [hx, List.filter_eq_nil_iff]
  intro sig hsig
  rcases List.mem_append.mp hsig with h | h
  · obtain ⟨i, rfl⟩ := h1 sig h
    simp [Signal.isInsert]
  · obtain ⟨a, rfl⟩ := h2 sig h
    simp [Signal.isInsert]

/-- After a pass every snapshot id is in the display list. -/
theorem updateModel_complete (scdb : SidechainDB)
    (model : List SidechainActivationTableObject) (v : View)
    (hv : updateModel scdb model = .ok v) (X : uint256)
    (hX : X ∈ snapshotIds scdb.GetSidechainActivationStatus) : X ∈ ids v.1 := by
  obtain ⟨v2, _, hw⟩ := updateModel_eq scdb model v hv
  rw [hw, insertNew_model]
  unfold ids
  rw [List.map_append, List.mem_append]
  by_cases hin : X ∈ ids v2.1
  · exact Or.inl hin
  · right
    unfold snapshotIds at hX
    obtain ⟨s, hs, rfl⟩ := List.mem_map.mp hX
    have hnew : s ∈ newEntries v2.1 scdb.GetSidechainActivationStatus := by
      unfold newEntries
      exact List.mem_filter.mpr ⟨hs, by simpa using hin⟩
    exact List.mem_map_of_mem (fun object => object.hash)
      (List.mem_map_of_mem (newObject scdb) hnew)

theorem removalLoop_length_le (vR : List SidechainActivationTableObject) (fuel i : Nat)
    (v v2 : View) (h : removalLoop vR fuel i v = .ok v2) : v2.1.length ≤ v.1.length := by
  obtain ⟨_, hk⟩ := removalLoop_induct vR (fun _ w => w.1.length ≤ v.1.length)
    (fun _ _ hw => hw)
    (fun i w m hw hr => by
      have := (removeRow_spec i w.1 m hr).2.1
      simp only at hw ⊢
      omega)
    fuel i v v2 (Nat.le_refl _) h
  exact hk

/-- With pairwise distinct ids in `vRemoved`, the loop started at row `i`
shortens the list when a row from `i` on holds an id of `vRemoved`. -/
theorem removalLoop_shrinks (vR : List SidechainActivationTableObject)
    (hnd : (ids vR).Nodup) (fuel i : Nat) (v v2 : View)
    (h : removalLoop vR fuel i v = .ok v2)
    (hex : ∃ j o, i ≤ j ∧ v.1[j]? = some o ∧ o.hash ∈ ids vR) :
    v2.1.length < v.1.length := by
  induction fuel generalizing i v with
  | zero =>
    obtain ⟨j, o, hij, hj, _⟩ := hex
    have hjl : j < v.1.length := (List.getElem?_eq_some_iff.mp hj).1
    simp only [removalLoop] at h
    rw [if_pos (by omega)] at h
    cases h
  | succ fuel ih =>
    obtain ⟨j, o, hij, hj, ho⟩ := hex
    have hjl : j < v.1.length := (List.getElem?_eq_some_iff.mp hj).1
    simp only [removalLoop] at h
    cases hget : v.1[i]? with
    | none =>
      have := List.getElem?_eq_none_iff.mp hget
      omega
    | some object =>
      rw [hget] at h
      simp only at h
      by_cases hm : object.hash ∈ ids vR
      · rw [removeScan_nodup i object vR v hnd hm] at h
        cases hr : removeRow i v.1 with
        | error e => rw [hr] at h; cases h
        | ok m =>
          rw [hr] at h
          simp only at h
          have h1 := removalLoop_length_le vR fuel (i + 1) _ v2 h
          have h2 := (removeRow_spec i v.1 m hr).2.1
          simp only at h1
          omega
      · rw [removeScan_absent i object vR v hm] at h
        simp only at h
        have hne : j ≠ i := by
          intro e
          subst e
          rw [hget] at hj
          injection hj with hj
          subst hj
          exact hm ho
        exact ih (i + 1) v h ⟨j, o, by omega, hj, ho⟩

theorem staleCount_refresh (scdb : SidechainDB) (snap : List SidechainActivationStatus)
    (model : List SidechainActivationTableObject) :
    staleCount snap (model.map (refresh scdb snap)) = staleCount snap model := by
  unfold staleCount
  rw [List.countP_map]
  apply List.countP_congr
  intro o _
  simp [refresh_hash]

theorem staleCount_new (scdb : SidechainDB) (snap : List SidechainActivationStatus)
    (m : List SidechainActivationTableObject) :
    staleCount snap ((newEntries m snap).map (newObject scdb)) = 0 := by
  unfold staleCount
  rw [List.countP_eq_zero]
  intro o ho
  obtain ⟨s, hs, rfl⟩ := List.mem_map.mp ho
  have hs2 : s ∈ snap := (List.mem_filter.mp hs).1
  have : (newObject scdb s).hash ∈ snapshotIds snap :=
    List.mem_map_of_mem (fun s => s.proposal.GetSerHash) hs2
  simpa using this

/-- What the removal loop does to a display list with pairwise distinct ids:
it ends without fault, adds nothing, keeps every record whose id is in the
snapshot, and shortens the list when a stale record exists. -/
theorem removalPass_progress (scdb : SidechainDB)
    (model : List SidechainActivationTableObject) (hnd : (ids model).Nodup) :
    ∃ v2, removalPass scdb model = .ok v2 ∧ (ids v2.1).Nodup ∧
      (∀ o ∈ v2.1, o ∈ model.map (refresh scdb scdb.GetSidechainActivationStatus)) ∧
      (∀ o ∈ model.map (refresh scdb scdb.GetSidechainActivationStatus),
        o.hash ∈ snapshotIds scdb.GetSidechainActivationStatus → o ∈ v2.1) ∧
      ((∃ o ∈ model, o.hash ∉ snapshotIds scdb.GetSidechainActivationStatus) →
        v2.1.length < model.length) := by
  obtain ⟨v2, hr⟩ := removalPass_total scdb model hnd
  refine ⟨v2, hr, ?_⟩
  obtain ⟨sigs1, _, he⟩ := removalPass_eq scdb model
  rw [he] at hr
  have hvR := ids_stale_nodup scdb.GetSidechainActivationStatus model hnd
  refine ⟨removalLoop_nodup_ids _ _ _ _ v2 hr (by rw [ids_refresh]; exact hnd),
    fun o ho => removalLoop_mem _ _ _ _ v2 hr o ho, ?_, ?_⟩
  · intro o ho hfresh
    exact removalLoop_keep _ hvR _ _ _ v2 hr o ho
      (fun hc => ids_stale_absent _ model _ hc hfresh)
  · rintro ⟨o, ho, hstale⟩
    obtain ⟨j, hj⟩ := List.mem_iff_getElem?.mp ho
    have hlt := removalLoop_shrinks _ hvR _ 0 _ v2 hr
      ⟨j, refresh scdb scdb.GetSidechainActivationStatus o, Nat.zero_le _, by
        simp only [List.getElem?_map, hj, Option.map_some'], by
        rw [refresh_hash]
        have hst : isStale scdb.GetSidechainActivationStatus o = true := by
          simpa [isStale] using hstale
        exact List.mem_map_of_mem (fun object => object.hash)
          (List.mem_filter.mpr ⟨ho, hst⟩)⟩
    simpa using hlt

/-- Counting in a list without repetition and a shorter part of it that holds
every element failing `p`: the part has fewer elements satisfying `p`. -/
theorem countP_lt_of_part (p : SidechainActivationTableObject → Bool)
    (l1 l2 : List SidechainActivationTableObject) (h2 : l2.Nodup)
    (hkeep : ∀ a ∈ l2, p a = false → a ∈ l1) (hlen : l1.length < l2.length) :
    l1.countP p < l2.countP p := by
  have e1 := List.length_eq_countP_add_countP p l1
  have e2 := List.length_eq_countP_add_countP p l2
  have hle : l2.countP (fun a => decide ¬(p a = true)) ≤
      l1.countP (fun a => decide ¬(p a = true)) := by
    rw [List.countP_eq_length_filter, List.countP_eq_length_filter]
    apply List.Subperm.length_le
    apply List.subperm_of_subset (h2.filter _)
    intro a ha
    obtain ⟨ha1, ha2⟩ := List.mem_filter.mp ha
    have hpa : p a = false := by simpa using ha2
    exact List.mem_filter.mpr ⟨hkeep a ha1 hpa, ha2⟩
  omega

/-! ## Properties of `updateModel` and `GetHashAtRow` -/

/-- C1 (set equivalence), on the display list `[A, B]` with an empty snapshot:
both records are marked stale, the removal loop deletes `A` at row 0 by moving
`B` into row 0 and then stops at `i = 1`, so `B` stays in the list although the
snapshot holds no id at all. -/
theorem updateModel_leaves_stale_record :
    updateModel (mkDB []) [mkObject 1 3 0, mkObject 2 10 2] =
      .ok ([mkObject 2 10 2], [Signal.rowsRemoved 0 0]) ∧
    ids [mkObject 2 10 2] = [2] ∧
    snapshotIds (mkDB []).GetSidechainActivationStatus = [] :=
  ⟨rfl, rfl, rfl⟩

/-- C2 (no duplicate ids): from the empty display list, any sequence of passes
whose snapshots have pairwise distinct ids ends without fault in a display
list with pairwise distinct ids; the same holds from any display list with
pairwise distinct ids, and within each pass the update loop, the removal loop
and the insertion each leave the ids pairwise distinct. -/
theorem display_ids_stay_distinct (ticks : List SidechainDB)
    (h : ∀ scdb ∈ ticks, (snapshotIds scdb.GetSidechainActivationStatus).Nodup) :
    (∃ model, runTicks ticks [] = .ok model ∧ (ids model).Nodup) ∧
    (∀ start, (ids start).Nodup →
      ∃ model, runTicks ticks start = .ok model ∧ (ids model).Nodup) ∧
    ∀ scdb ∈ ticks, ∀ model, (ids model).Nodup →
      (ids (updatePass scdb scdb.GetSidechainActivationStatus model).model).Nodup ∧
      (∃ v2, removalPass scdb model = .ok v2 ∧ (ids v2.1).Nodup) ∧
      ∃ v, updateModel scdb model = .ok v ∧ (ids v.1).Nodup := by
  refine ⟨runTicks_nodup ticks h [] List.nodup_nil,
    fun start hs => runTicks_nodup ticks h start hs, ?_⟩
  intro scdb hscdb model hnd
  refine ⟨?_, ?_, ?_⟩
  · rw [(updatePass_spec scdb _ model).1, ids_refresh]
    exact hnd
  · obtain ⟨v2, hr⟩ := removalPass_total scdb model hnd
    refine ⟨v2, hr, ?_⟩
    obtain ⟨sigs1, _, he⟩ := removalPass_eq scdb model
    rw [he] at hr
    exact removalLoop_nodup_ids _ _ _ _ v2 hr (by rw [ids_refresh]; exact hnd)
  · obtain ⟨v, hv⟩ := updateModel_total scdb model hnd
    exact ⟨v, hv, updateModel_nodup scdb model v hv hnd (h scdb hscdb)⟩

theorem display_ids_stay_distinct_witness :
    (∀ scdb ∈ [mkDB [mkStatus 1 0 0, mkStatus 2 0 0], mkDB [mkStatus 2 1 0, mkStatus 3 0 0]],
      (snapshotIds scdb.GetSidechainActivationStatus).Nodup) ∧
    ((∃ model, runTicks [mkDB [mkStatus 1 0 0, mkStatus 2 0 0],
        mkDB [mkStatus 2 1 0, mkStatus 3 0 0]] [] = .ok model ∧ (ids model).Nodup) ∧
    (∀ start, (ids start).Nodup →
      ∃ model, runTicks [mkDB [mkStatus 1 0 0, mkStatus 2 0 0],
        mkDB [mkStatus 2 1 0, mkStatus 3 0 0]] start = .ok model ∧ (ids model).Nodup) ∧
    ∀ scdb ∈ [mkDB [mkStatus 1 0 0, mkStatus 2 0 0], mkDB [mkStatus 2 1 0, mkStatus 3 0 0]],
      ∀ model, (ids model).Nodup →
        (ids (updatePass scdb scdb.GetSidechainActivationStatus model).model).Nodup ∧
        (∃ v2, removalPass scdb model = .ok v2 ∧ (ids v2.1).Nodup) ∧
        ∃ v, updateModel scdb model = .ok v ∧ (ids v.1).Nodup) :=
  have hyp : ∀ scdb ∈ [mkDB [mkStatus 1 0 0, mkStatus 2 0 0],
      mkDB [mkStatus 2 1 0, mkStatus 3 0 0]],
      (snapshotIds scdb.GetSidechainActivationStatus).Nodup := by
    intro scdb hmem
    simp only [List.mem_cons, List.mem_singleton, List.not_mem_nil, or_false] at hmem
    rcases hmem with rfl | rfl <;> decide
  ⟨hyp, display_ids_stay_distinct _ hyp⟩

/-- C3 as stated fails: with display list `[A, B, C]` and snapshot `[B, C]` the
removal of `A` at row 0 moves the last record `C` into row 0, so `C`, which is
in the list before and after the pass, goes from index 2 to index 0 (and now
precedes `B`). -/
theorem stable_position_counterexample :
    updateModel (mkDB [mkStatus 2 11 2, mkStatus 3 0 0])
        [mkObject 1 3 0, mkObject 2 10 2, mkObject 3 1 1] =
      .ok ([mkObject 3 0 0, mkObject 2 11 2],
        [Signal.dataChanged 1, Signal.dataChanged 2, Signal.rowsRemoved 0 0]) ∧
    3 ∈ ids [mkObject 1 3 0, mkObject 2 10 2, mkObject 3 1 1] ∧
    3 ∈ ids [mkObject 3 0 0, mkObject 2 11 2] ∧
    List.indexOf 3 (ids [mkObject 1 3 0, mkObject 2 10 2, mkObject 3 1 1]) = 2 ∧
    List.indexOf 3 (ids [mkObject 3 0 0, mkObject 2 11 2]) = 0 :=
  ⟨rfl, by decide, by decide, by decide, by decide⟩

/-- C3, amended: for a display list with pairwise distinct ids the pass ends
without fault, and for every id `X` in the list before and after the pass the
index of `X` after the pass is at most its index before, and equal to it
whenever the index before is below the size of the list after the removal
loop; that size is the size before the pass when every displayed id occurs in
the snapshot, so then no record moves. -/
theorem stable_position_below_reduced_size (scdb : SidechainDB)
    (model : List SidechainActivationTableObject) (hnd : (ids model).Nodup) :
    ∃ v2 v, removalPass scdb model = .ok v2 ∧ updateModel scdb model = .ok v ∧
      ((∀ X ∈ ids model, X ∈ snapshotIds scdb.GetSidechainActivationStatus) →
        v2.1.length = model.length) ∧
      ∀ X, X ∈ ids model → X ∈ ids v.1 →
        List.indexOf X (ids v.1) ≤ List.indexOf X (ids model) ∧
        (List.indexOf X (ids model) < v2.1.length →
          List.indexOf X (ids v.1) = List.indexOf X (ids model)) := by
  obtain ⟨v2, hr⟩ := removalPass_total scdb model hnd
  obtain ⟨v, hv⟩ := updateModel_total scdb model hnd
  refine ⟨v2, v, hr, hv, ?_, ?_⟩
  · intro hall
    obtain ⟨sigs1, _, he⟩ := removalPass_eq scdb model
    rw [he] at hr
    have := removalLoop_nothing _ _ _ _ v2 (by
      intro o ho hc
      obtain ⟨o2, ho2, rfl⟩ := List.mem_map.mp ho
      rw [refresh_hash] at hc
      exact ids_stale_absent _ model _ hc
        (hall _ (List.mem_map_of_mem (fun object => object.hash) ho2))) hr
    rw [this]
    simp
  · intro X hX hXv
    obtain ⟨w, hr2, hw⟩ := updateModel_eq scdb model v hv
    rw [hr] at hr2
    injection hr2 with hr2
    subst hr2
    have hids : ids v.1 = ids v2.1 ++
        snapshotIds (newEntries v2.1 scdb.GetSidechainActivationStatus) := by
      rw [hw, insertNew_model, ← ids_newEntries scdb]
      unfold ids
      rw [List.map_append]
    have hX2 : X ∈ ids v2.1 := by
      rw [hids] at hXv
      rcases List.mem_append.mp hXv with h1 | h1
      · exact h1
      · apply removalPass_keeps_fresh scdb model hnd v2 hr X hX
        unfold snapshotIds newEntries at h1
        obtain ⟨s, hs, rfl⟩ := List.mem_map.mp h1
        exact List.mem_map_of_mem _ (List.mem_filter.mp hs).1
    have hidx : List.indexOf X (ids v.1) = List.indexOf X (ids v2.1) := by
      rw [hids]
      exact List.indexOf_append_of_mem hX2
    have hlt : List.indexOf X (ids v2.1) < v2.1.length := by
      have := List.indexOf_lt_length.mpr hX2
      simpa [ids] using this
    have hget : (ids v2.1)[List.indexOf X (ids v2.1)]? = some X := List.getElem?_indexOf hX2
    obtain ⟨sigs1, _, he⟩ := removalPass_eq scdb model
    rw [he] at hr
    have hrows := removalLoop_rows _ _ _ v2 hr (List.indexOf X (ids v2.1)) hlt
    simp only at hrows
    rcases hrows with h1 | ⟨k, hk, h1⟩
    · have h2 : (ids model)[List.indexOf X (ids v2.1)]? = some X := by
        rw [← ids_refresh scdb scdb.GetSidechainActivationStatus, ids_getElem_opt, ← h1,
          ← ids_getElem_opt]
        exact hget
      have h3 := indexOf_of_getElem_some _ hnd _ _ h2
      rw [hidx, h3]
      exact ⟨Nat.le_refl _, fun _ => rfl⟩
    · have h2 : (ids model)[k]? = some X := by
        rw [← ids_refresh scdb scdb.GetSidechainActivationStatus, ids_getElem_opt, ← h1,
          ← ids_getElem_opt]
        exact hget
      have h3 := indexOf_of_getElem_some _ hnd _ _ h2
      rw [hidx, h3]
      exact ⟨by omega, fun hc => by omega⟩

theorem stable_position_below_reduced_size_witness :
    (ids [mkObject 1 3 0, mkObject 2 10 2, mkObject 3 1 1]).Nodup ∧
    ∃ v2 v, removalPass (mkDB [mkStatus 2 11 2, mkStatus 3 0 0])
        [mkObject 1 3 0, mkObject 2 10 2, mkObject 3 1 1] = .ok v2 ∧
      updateModel (mkDB [mkStatus 2 11 2, mkStatus 3 0 0])
        [mkObject 1 3 0, mkObject 2 10 2, mkObject 3 1 1] = .ok v ∧
      ((∀ X ∈ ids [mkObject 1 3 0, mkObject 2 10 2, mkObject 3 1 1],
          X ∈ snapshotIds (mkDB [mkStatus 2 11 2, mkStatus 3 0 0]).GetSidechainActivationStatus) →
        v2.1.length = [mkObject 1 3 0, mkObject 2 10 2, mkObject 3 1 1].length) ∧
      ∀ X, X ∈ ids [mkObject 1 3 0, mkObject 2 10 2, mkObject 3 1 1] → X ∈ ids v.1 →
        List.indexOf X (ids v.1) ≤
          List.indexOf X (ids [mkObject 1 3 0, mkObject 2 10 2, mkObject 3 1 1]) ∧
        (List.indexOf X (ids [mkObject 1 3 0, mkObject 2 10 2, mkObject 3 1 1]) < v2.1.length →
          List.indexOf X (ids v.1) =
            List.indexOf X (ids [mkObject 1 3 0, mkObject 2 10 2, mkObject 3 1 1])) :=
  ⟨by decide, stable_position_below_reduced_size _ _ (by decide)⟩

/-- C4 (append order): a pass on a display list with pairwise distinct ids
ends without fault, and whenever a pass ends, the list it leaves is the list
left by the removal loop followed by one new record for each snapshot entry
whose id is not in that list, in the order of the snapshot; the new record of
an entry carries the id, slot, title, description, age and failure count of
the entry, the ack stance the source gives for its id and the is-active answer
the source gives for its slot. -/
theorem new_records_appended_in_snapshot_order (scdb : SidechainDB)
    (model : List SidechainActivationTableObject) :
    ((ids model).Nodup → ∃ v, updateModel scdb model = .ok v) ∧
    ∀ v, updateModel scdb model = .ok v →
      ∃ v2, removalPass scdb model = .ok v2 ∧
        v.1 = v2.1 ++
          (scdb.GetSidechainActivationStatus.filter
            (fun s => decide (s.proposal.GetSerHash ∉ ids v2.1))).map
            (fun s =>
              ({ fAck := scdb.GetAckSidechain s.proposal.GetSerHash
                 nSidechain := s.proposal.nSidechain
                 fReplacement := scdb.IsSidechainActive s.proposal.nSidechain
                 title := s.proposal.title
                 description := s.proposal.description
                 nAge := s.nAge
                 nFail := s.nFail
                 hash := s.proposal.GetSerHash } : SidechainActivationTableObject)) := by
  refine ⟨updateModel_total scdb model, ?_⟩
  intro v hv
  obtain ⟨v2, hr, hw⟩ := updateModel_eq scdb model v hv
  refine ⟨v2, hr, ?_⟩
  rw [hw, insertNew_model]
  rfl

theorem new_records_appended_in_snapshot_order_witness :
    updateModel (mkDB [mkStatus 4 7 1, mkStatus 2 11 2, mkStatus 3 0 0])
        [mkObject 1 3 0, mkObject 2 10 2] =
      .ok ([mkObject 2 11 2, mkObject 4 7 1, mkObject 3 0 0],
        [Signal.dataChanged 1, Signal.rowsRemoved 0 0, Signal.rowsInserted 1 2]) ∧
    (((ids [mkObject 1 3 0, mkObject 2 10 2]).Nodup →
      ∃ v, updateModel (mkDB [mkStatus 4 7 1, mkStatus 2 11 2, mkStatus 3 0 0])
        [mkObject 1 3 0, mkObject 2 10 2] = .ok v) ∧
    ∀ v, updateModel (mkDB [mkStatus 4 7 1, mkStatus 2 11 2, mkStatus 3 0 0])
        [mkObject 1 3 0, mkObject 2 10 2] = .ok v →
      ∃ v2, removalPass (mkDB [mkStatus 4 7 1, mkStatus 2 11 2, mkStatus 3 0 0])
          [mkObject 1 3 0, mkObject 2 10 2] = .ok v2 ∧
        v.1 = v2.1 ++
          ((mkDB [mkStatus 4 7 1, mkStatus 2 11 2,
              mkStatus 3 0 0]).GetSidechainActivationStatus.filter
            (fun s => decide (s.proposal.GetSerHash ∉ ids v2.1))).map
            (fun s =>
              ({ fAck := (mkDB [mkStatus 4 7 1, mkStatus 2 11 2,
                   mkStatus 3 0 0]).GetAckSidechain s.proposal.GetSerHash
                 nSidechain := s.proposal.nSidechain
                 fReplacement := (mkDB [mkStatus 4 7 1, mkStatus 2 11 2,
                   mkStatus 3 0 0]).IsSidechainActive s.proposal.nSidechain
                 title := s.proposal.title
                 description := s.proposal.description
                 nAge := s.nAge
                 nFail := s.nFail
                 hash := s.proposal.GetSerHash } : SidechainActivationTableObject))) :=
  ⟨rfl, new_records_appended_in_snapshot_order
    (mkDB [mkStatus 4 7 1, mkStatus 2 11 2, mkStatus 3 0 0])
    [mkObject 1 3 0, mkObject 2 10 2]⟩

/-- C5 (idempotence), on the display list `[A, C, B]` with the snapshot `[C]`
at both calls: the first call deletes `A` by moving `B` into row 0 and leaves
`[B, C]`; the second call, with the same snapshot and the same answers of the
source, emits a `rowsRemoved` signal and leaves `[C]`. -/
theorem second_pass_removes_again :
    updateModel (mkDB [mkStatus 3 5 0])
        [mkObject 1 3 0, mkObject 3 4 0, mkObject 2 10 2] =
      .ok ([mkObject 2 10 2, mkObject 3 5 0],
        [Signal.dataChanged 1, Signal.rowsRemoved 0 0]) ∧
    updateModel (mkDB [mkStatus 3 5 0]) [mkObject 2 10 2, mkObject 3 5 0] =
      .ok ([mkObject 3 5 0], [Signal.dataChanged 1, Signal.rowsRemoved 0 0]) :=
  ⟨rfl, rfl⟩

/-- C6 (refresh of mutable fields): with pairwise distinct snapshot ids, a
pass on a display list with pairwise distinct ids ends without fault, and
whenever a pass ends, every record of the resulting list whose id is the id
of a snapshot entry has the age and failure count of that entry, the ack
stance the source gives for the id and the is-active answer the source gives
for the slot of the entry. -/
theorem mutable_fields_refreshed (scdb : SidechainDB)
    (model : List SidechainActivationTableObject)
    (hsnap : (snapshotIds scdb.GetSidechainActivationStatus).Nodup) :
    ((ids model).Nodup → ∃ v, updateModel scdb model = .ok v) ∧
    ∀ v, updateModel scdb model = .ok v →
      ∀ o ∈ v.1, ∀ s ∈ scdb.GetSidechainActivationStatus,
        s.proposal.GetSerHash = o.hash →
          o.nAge = s.nAge ∧ o.nFail = s.nFail ∧
          o.fAck = scdb.GetAckSidechain s.proposal.GetSerHash ∧
          o.fReplacement = scdb.IsSidechainActive s.proposal.nSidechain := by
  refine ⟨updateModel_total scdb model, ?_⟩
  intro v hv o ho s hs hh
  obtain ⟨v2, hr, hw⟩ := updateModel_eq scdb model v hv
  rw [hw, insertNew_model] at ho
  rcases List.mem_append.mp ho with h1 | h1
  · obtain ⟨sigs1, _, he⟩ := removalPass_eq scdb model
    rw [he] at hr
    have hm := removalLoop_mem _ _ _ _ v2 hr o h1
    obtain ⟨o0, _, rfl⟩ := List.mem_map.mp hm
    rw [refresh_hash] at hh
    exact scanFold_fields scdb 0 _ _ hsnap s hs hh
  · obtain ⟨s2, hs2, rfl⟩ := List.mem_map.mp h1
    have hs2m : s2 ∈ scdb.GetSidechainActivationStatus := (List.mem_filter.mp hs2).1
    have : s = s2 := List.inj_on_of_nodup_map hsnap hs hs2m hh
    subst this
    exact ⟨rfl, rfl, rfl, rfl⟩

theorem mutable_fields_refreshed_witness :
    (snapshotIds (mkDB [mkStatus 2 11 2, mkStatus 3 0 0]).GetSidechainActivationStatus).Nodup ∧
    (((ids [mkObject 1 3 0, mkObject 2 10 2, mkObject 3 1 1]).Nodup →
      ∃ v, updateModel (mkDB [mkStatus 2 11 2, mkStatus 3 0 0])
        [mkObject 1 3 0, mkObject 2 10 2, mkObject 3 1 1] = .ok v) ∧
    ∀ v, updateModel (mkDB [mkStatus 2 11 2, mkStatus 3 0 0])
        [mkObject 1 3 0, mkObject 2 10 2, mkObject 3 1 1] = .ok v →
      ∀ o ∈ v.1, ∀ s ∈ (mkDB [mkStatus 2 11 2, mkStatus 3 0 0]).GetSidechainActivationStatus,
        s.proposal.GetSerHash = o.hash →
          o.nAge = s.nAge ∧ o.nFail = s.nFail ∧
          o.fAck = (mkDB [mkStatus 2 11 2, mkStatus 3 0 0]).GetAckSidechain
            s.proposal.GetSerHash ∧
          o.fReplacement = (mkDB [mkStatus 2 11 2, mkStatus 3 0 0]).IsSidechainActive
            s.proposal.nSidechain) :=
  ⟨by decide, mutable_fields_refreshed _ _ (by decide)⟩

/-- C7 (immutable fields are framed): on a display list as the model holds
it, with pairwise distinct ids, a pass ends without fault, and every record of
the resulting list whose id was in the list before the pass has the slot
number, title, description and id of the record that carried this id before
the pass, whatever the snapshot entry of that id carries in these fields. -/
theorem immutable_fields_framed (scdb : SidechainDB)
    (model : List SidechainActivationTableObject) (hnd : (ids model).Nodup) :
    ∃ v, updateModel scdb model = .ok v ∧
      ∀ o ∈ model, ∀ o2 ∈ v.1, o2.hash = o.hash →
        o2.nSidechain = o.nSidechain ∧ o2.title = o.title ∧
        o2.description = o.description ∧ o2.hash = o.hash := by
  obtain ⟨v, hv⟩ := updateModel_total scdb model hnd
  refine ⟨v, hv, ?_⟩
  intro o ho o2 ho2 hh
  obtain ⟨v2, hr, hw⟩ := updateModel_eq scdb model v hv
  rw [hw, insertNew_model] at ho2
  rcases List.mem_append.mp ho2 with h1 | h1
  · obtain ⟨sigs1, _, he⟩ := removalPass_eq scdb model
    rw [he] at hr
    have hm := removalLoop_mem _ _ _ _ v2 hr o2 h1
    obtain ⟨o0, ho0, rfl⟩ := List.mem_map.mp hm
    rw [refresh_hash] at hh
    have : o0 = o := List.inj_on_of_nodup_map hnd ho0 ho hh
    subst this
    obtain ⟨g1, g2, g3⟩ := scanFold_frame scdb 0 scdb.GetSidechainActivationStatus
      { object := o0, fFound := false, sigs := [] }
    exact ⟨g1, g2, g3, refresh_hash scdb _ o0⟩
  · exfalso
    obtain ⟨s2, hs2, rfl⟩ := List.mem_map.mp h1
    have hf := List.mem_filter.mp hs2
    have hnot : s2.proposal.GetSerHash ∉ ids v2.1 := by simpa using hf.2
    apply hnot
    have hin : o.hash ∈ ids v2.1 :=
      removalPass_keeps_fresh scdb model hnd v2 hr o.hash
        (List.mem_map_of_mem (fun object => object.hash) ho)
        (by rw [← hh]; exact List.mem_map_of_mem (fun s => s.proposal.GetSerHash) hf.1)
    rw [← hh] at hin
    exact hin

theorem immutable_fields_framed_witness :
    (ids [mkObject 1 3 0, mkObject 2 10 2, mkObject 3 1 1]).Nodup ∧
    ∃ v, updateModel (mkDB [{ mkStatus 2 11 2 with
            proposal := { nSidechain := 7, title := "t", description := "d", serHash := 2 } },
          mkStatus 4 0 0])
        [mkObject 1 3 0, mkObject 2 10 2, mkObject 3 1 1] = .ok v ∧
      ∀ o ∈ [mkObject 1 3 0, mkObject 2 10 2, mkObject 3 1 1], ∀ o2 ∈ v.1, o2.hash = o.hash →
        o2.nSidechain = o.nSidechain ∧ o2.title = o.title ∧
        o2.description = o.description ∧ o2.hash = o.hash :=
  ⟨by decide, immutable_fields_framed _ _ (by decide)⟩

/-- C8 (`GetHashAtRow`), at the negative position `-1`: the guard of line 238
only tests `row >= model.size()`, so the call goes on to read `model[-1]`,
outside of the list, instead of returning false.  For positions inside the
list the call yields true and the id stored there, and for positions at or
beyond the size it yields false and leaves the output id as it was. -/
theorem GetHashAtRow_negative_row_reads_list :
    GetHashAtRow [mkObject 2 10 2] (-1) 7 = .error .indexOutOfRange ∧
    ∀ (model : List SidechainActivationTableObject) (row : Int) (hash : uint256),
      (row < 0 → GetHashAtRow model row hash = .error .indexOutOfRange) ∧
      ((model.length : Int) ≤ row → GetHashAtRow model row hash = .ok (false, hash)) ∧
      (0 ≤ row → row < (model.length : Int) →
        ∃ o, model[row.toNat]? = some o ∧ GetHashAtRow model row hash = .ok (true, o.hash)) := by
  refine ⟨rfl, ?_⟩
  intro model row hash
  refine ⟨?_, ?_, ?_⟩
  · intro h
    unfold GetHashAtRow modelAt
    rw [if_neg (by omega), if_neg (by omega)]
  · intro h
    unfold GetHashAtRow
    rw [if_pos h]
  · intro h0 h1
    have hlt : row.toNat < model.length := by omega
    refine ⟨model[row.toNat], List.getElem?_eq_getElem hlt, ?_⟩
    unfold GetHashAtRow modelAt
    rw [if_neg (by omega), if_pos h0, List.getElem?_eq_getElem hlt]

/-- C9 (worked example): with display list `[A, B]` and snapshot `[B2, C]`,
where `B2` carries the id of `B` and the ids of `A`, `B`, `C` are distinct, the
pass ends with the list `[B refreshed from B2, new record of C]` and emits, in
this order, one `dataChanged` for the row of `B`, one `rowsRemoved` for row 0
(the row of `A`) and one `rowsInserted` for row 1. -/
theorem worked_example (scdb : SidechainDB) (a b : SidechainActivationTableObject)
    (sb sc : SidechainActivationStatus)
    (hsnap : scdb.GetSidechainActivationStatus = [sb, sc])
    (hb : sb.proposal.GetSerHash = b.hash) (hab : a.hash ≠ b.hash)
    (hca : sc.proposal.GetSerHash ≠ a.hash) (hcb : sc.proposal.GetSerHash ≠ b.hash) :
    updateModel scdb [a, b] =
      .ok ([{ b with
              nAge := sb.nAge
              nFail := sb.nFail
              fAck := scdb.GetAckSidechain sb.proposal.GetSerHash
              fReplacement := scdb.IsSidechainActive sb.proposal.nSidechain },
            newObject scdb sc],
        [Signal.dataChanged 1, Signal.rowsRemoved 0 0, Signal.rowsInserted 1 1]) := by
  have hba : ¬ sb.proposal.GetSerHash = a.hash := by rw [hb]; exact fun e => hab e.symm
  have hba2 : ¬ b.hash = a.hash := fun e => hab e.symm
  simp [updateModel, removalPass, updatePass, List.range, List.range.loop, updateStep, scanRow,
    scanStep, hsnap, hb, hab, hca, hcb, hba, hba2, removalLoop, removeScan, removeRow,
    collectNew, foundInModel, insertNew]

theorem worked_example_witness :
    (mkDB [mkStatus 2 11 2, mkStatus 3 0 0]).GetSidechainActivationStatus =
      [mkStatus 2 11 2, mkStatus 3 0 0] ∧
    (mkStatus 2 11 2).proposal.GetSerHash = (mkObject 2 10 2).hash ∧
    (mkObject 1 3 0).hash ≠ (mkObject 2 10 2).hash ∧
    (mkStatus 3 0 0).proposal.GetSerHash ≠ (mkObject 1 3 0).hash ∧
    (mkStatus 3 0 0).proposal.GetSerHash ≠ (mkObject 2 10 2).hash ∧
    updateModel (mkDB [mkStatus 2 11 2, mkStatus 3 0 0]) [mkObject 1 3 0, mkObject 2 10 2] =
      .ok ([mkObject 2 11 2, mkObject 3 0 0],
        [Signal.dataChanged 1, Signal.rowsRemoved 0 0, Signal.rowsInserted 1 1]) :=
  ⟨rfl, rfl, by decide, by decide, by decide,
    worked_example (mkDB [mkStatus 2 11 2, mkStatus 3 0 0]) (mkObject 1 3 0) (mkObject 2 10 2)
      (mkStatus 2 11 2) (mkStatus 3 0 0) rfl rfl (by decide) (by decide) (by decide)⟩

/-- C10 (batched insert notification): a pass on a display list with pairwise
distinct ids ends without fault, and whenever a pass ends, with `s` the size
of the list after the removal loop and `n` the number of snapshot entries
whose id is not in that list, the resulting list has `s + n` records and the
pass has emitted no `rowsInserted` signal when `n = 0` and exactly one, for
the range from `s` to `s + n - 1`, otherwise. -/
theorem one_insert_signal_for_the_block (scdb : SidechainDB)
    (model : List SidechainActivationTableObject) :
    ((ids model).Nodup → ∃ v, updateModel scdb model = .ok v) ∧
    ∀ v, updateModel scdb model = .ok v →
      ∃ v2, removalPass scdb model = .ok v2 ∧
        v.1.length = v2.1.length +
          (newEntries v2.1 scdb.GetSidechainActivationStatus).length ∧
        v.2.filter Signal.isInsert =
          if (newEntries v2.1 scdb.GetSidechainActivationStatus).length = 0 then []
          else [Signal.rowsInserted v2.1.length
            (v2.1.length + (newEntries v2.1 scdb.GetSidechainActivationStatus).length - 1)] := by
  refine ⟨updateModel_total scdb model, ?_⟩
  intro v hv
  obtain ⟨v2, hr, hw⟩ := updateModel_eq scdb model v hv
  refine ⟨v2, hr, ?_, ?_⟩
  · rw [hw, insertNew_model, List.length_append, List.length_map]
  · rw [hw, insertNew_sigs]
    have hno := removalPass_no_insert scdb model v2 hr
    split
    · exact hno
    · rw [List.filter_append, hno]
      simp [Signal.isInsert]

theorem one_insert_signal_for_the_block_witness :
    ((ids [mkObject 1 3 0, mkObject 2 10 2]).Nodup →
      ∃ v, updateModel (mkDB [mkStatus 4 0 0, mkStatus 2 11 2, mkStatus 3 0 0])
        [mkObject 1 3 0, mkObject 2 10 2] = .ok v) ∧
    ∀ v, updateModel (mkDB [mkStatus 4 0 0, mkStatus 2 11 2, mkStatus 3 0 0])
        [mkObject 1 3 0, mkObject 2 10 2] = .ok v →
      ∃ v2, removalPass (mkDB [mkStatus 4 0 0, mkStatus 2 11 2, mkStatus 3 0 0])
          [mkObject 1 3 0, mkObject 2 10 2] = .ok v2 ∧
        v.1.length = v2.1.length +
          (newEntries v2.1 (mkDB [mkStatus 4 0 0, mkStatus 2 11 2,
            mkStatus 3 0 0]).GetSidechainActivationStatus).length ∧
        v.2.filter Signal.isInsert =
          if (newEntries v2.1 (mkDB [mkStatus 4 0 0, mkStatus 2 11 2,
            mkStatus 3 0 0]).GetSidechainActivationStatus).length = 0 then []
          else [Signal.rowsInserted v2.1.length
            (v2.1.length + (newEntries v2.1 (mkDB [mkStatus 4 0 0, mkStatus 2 11 2,
              mkStatus 3 0 0]).GetSidechainActivationStatus).length - 1)] :=
  one_insert_signal_for_the_block
    (mkDB [mkStatus 4 0 0, mkStatus 2 11 2, mkStatus 3 0 0]) [mkObject 1 3 0, mkObject 2 10 2]

/-- What `data` does once the index is valid and its row is inside the
list: the role and the column select the value. -/
theorem data_eq (params : SidechainParams) (model : List SidechainActivationTableObject)
    (index : QModelIndex) (role : Int) (object : SidechainActivationTableObject)
    (hv : index.isValid = true) (hrow : model[index.row.toNat]? = some object) :
    data params model index role =
      if role = DisplayRole then
        if index.column = 0 then .ok (.string (if object.fAck then "ACK" else "NACK"))
        else if index.column = 1 then .ok (.string (toString object.nSidechain))
        else if index.column = 2 then .ok (.bool object.fReplacement)
        else if index.column = 3 then .ok (.string object.title)
        else if index.column = 4 then .ok (.string object.description)
        else if index.column = 5 then
          .ok (.string (toString object.nAge ++ " / " ++
            toString (if object.fReplacement then params.SIDECHAIN_REPLACEMENT_PERIOD
              else params.SIDECHAIN_ACTIVATION_PERIOD)))
        else if index.column = 6 then
          .ok (.string (toString object.nFail ++ " / " ++
            toString params.SIDECHAIN_ACTIVATION_MAX_FAILURES))
        else if index.column = 7 then .ok (.string (params.hashText object.hash))
        else .ok .invalid
      else .ok .invalid := by
  have h0 : 0 ≤ index.row := by
    unfold QModelIndex.isValid at hv
    simp only [Bool.and_eq_true, decide_eq_true_eq] at hv
    exact hv.1.1
  unfold data modelAt
  simp only [hv, Bool.not_true, Bool.false_eq_true, if_false, if_pos h0, hrow]

/-- C11 (field accessor): `columnCount` is 8 and `rowCount` is the length of
the display list; for a valid index whose row is inside the list, `data` with
the display role returns, for the columns 0 to 7: "ACK" or "NACK" after the
ack flag, the slot number in decimal, the replacement flag, the title, the
description, the age followed by " / " and the replacement period when the
replacement flag is set, the activation period otherwise, the failure count
followed by " / " and the maximal number of failures, and the id string; for
a column above 7, and for every other role, it returns the empty value. -/
theorem data_returns_the_fields (params : SidechainParams)
    (model : List SidechainActivationTableObject) (index : QModelIndex) (role : Int)
    (object : SidechainActivationTableObject)
    (hv : index.isValid = true) (hrow : model[index.row.toNat]? = some object) :
    columnCount = 8 ∧ rowCount model = (model.length : Int) ∧
    (role = DisplayRole →
      (index.column = 0 → data params model index role =
        .ok (.string (if object.fAck then "ACK" else "NACK"))) ∧
      (index.column = 1 → data params model index role =
        .ok (.string (toString object.nSidechain))) ∧
      (index.column = 2 → data params model index role = .ok (.bool object.fReplacement)) ∧
      (index.column = 3 → data params model index role = .ok (.string object.title)) ∧
      (index.column = 4 → data params model index role = .ok (.string object.description)) ∧
      (index.column = 5 → data params model index role =
        .ok (.string (toString object.nAge ++ " / " ++
          toString (if object.fReplacement then params.SIDECHAIN_REPLACEMENT_PERIOD
            else params.SIDECHAIN_ACTIVATION_PERIOD)))) ∧
      (index.column = 6 → data params model index role =
        .ok (.string (toString object.nFail ++ " / " ++
          toString params.SIDECHAIN_ACTIVATION_MAX_FAILURES))) ∧
      (index.column = 7 → data params model index role =
        .ok (.string (params.hashText object.hash))) ∧
      (7 < index.column → data params model index role = .ok .invalid)) ∧
    (role ≠ DisplayRole → data params model index role = .ok .invalid) := by
  have h := data_eq params model index role object hv hrow
  refine ⟨rfl, rfl, ?_, ?_⟩
  · intro hr
    rw [if_pos hr] at h
    have hcol : ∀ k : Int, index.column = k →
        data params model index role =
          if k = 0 then .ok (.string (if object.fAck then "ACK" else "NACK"))
          else if k = 1 then .ok (.string (toString object.nSidechain))
          else if k = 2 then .ok (.bool object.fReplacement)
          else if k = 3 then .ok (.string object.title)
          else if k = 4 then .ok (.string object.description)
          else if k = 5 then
            .ok (.string (toString object.nAge ++ " / " ++
              toString (if object.fReplacement then params.SIDECHAIN_REPLACEMENT_PERIOD
                else params.SIDECHAIN_ACTIVATION_PERIOD)))
          else if k = 6 then
            .ok (.string (toString object.nFail ++ " / " ++
              toString params.SIDECHAIN_ACTIVATION_MAX_FAILURES))
          else if k = 7 then .ok (.string (params.hashText object.hash))
          else .ok .invalid := by
      intro k hk
      rw [h, hk]
    refine ⟨fun hc => hcol 0 hc, fun hc => hcol 1 hc, fun hc => hcol 2 hc,
      fun hc => hcol 3 hc, fun hc => hcol 4 hc, fun hc => hcol 5 hc, fun hc => hcol 6 hc,
      fun hc => hcol 7 hc, ?_⟩
    intro hc
    rw [h]
    split_ifs <;> first | rfl | omega
  · intro hr
    rw [h, if_neg hr]

theorem data_returns_the_fields_witness :
    (QModelIndex.mk 0 5 true).isValid = true ∧
    [mkObject 2 10 2][(QModelIndex.mk 0 5 true).row.toNat]? = some (mkObject 2 10 2) ∧
    (columnCount = 8 ∧ rowCount [mkObject 2 10 2] = (([mkObject 2 10 2].length : Nat) : Int) ∧
    (DisplayRole = DisplayRole →
      ((QModelIndex.mk 0 5 true).column = 0 →
        data mkParams [mkObject 2 10 2] (QModelIndex.mk 0 5 true) DisplayRole =
          .ok (.string (if (mkObject 2 10 2).fAck then "ACK" else "NACK"))) ∧
      ((QModelIndex.mk 0 5 true).column = 1 →
        data mkParams [mkObject 2 10 2] (QModelIndex.mk 0 5 true) DisplayRole =
          .ok (.string (toString (mkObject 2 10 2).nSidechain))) ∧
      ((QModelIndex.mk 0 5 true).column = 2 →
        data mkParams [mkObject 2 10 2] (QModelIndex.mk 0 5 true) DisplayRole =
          .ok (.bool (mkObject 2 10 2).fReplacement)) ∧
      ((QModelIndex.mk 0 5 true).column = 3 →
        data mkParams [mkObject 2 10 2] (QModelIndex.mk 0 5 true) DisplayRole =
          .ok (.string (mkObject 2 10 2).title)) ∧
      ((QModelIndex.mk 0 5 true).column = 4 →
        data mkParams [mkObject 2 10 2] (QModelIndex.mk 0 5 true) DisplayRole =
          .ok (.string (mkObject 2 10 2).description)) ∧
      ((QModelIndex.mk 0 5 true).column = 5 →
        data mkParams [mkObject 2 10 2] (QModelIndex.mk 0 5 true) DisplayRole =
          .ok (.string (toString (mkObject 2 10 2).nAge ++ " / " ++
            toString (if (mkObject 2 10 2).fReplacement
              then mkParams.SIDECHAIN_REPLACEMENT_PERIOD
              else mkParams.SIDECHAIN_ACTIVATION_PERIOD)))) ∧
      ((QModelIndex.mk 0 5 true).column = 6 →
        data mkParams [mkObject 2 10 2] (QModelIndex.mk 0 5 true) DisplayRole =
          .ok (.string (toString (mkObject 2 10 2).nFail ++ " / " ++
            toString mkParams.SIDECHAIN_ACTIVATION_MAX_FAILURES))) ∧
      ((QModelIndex.mk 0 5 true).column = 7 →
        data mkParams [mkObject 2 10 2] (QModelIndex.mk 0 5 true) DisplayRole =
          .ok (.string (mkParams.hashText (mkObject 2 10 2).hash))) ∧
      (7 < (QModelIndex.mk 0 5 true).column →
        data mkParams [mkObject 2 10 2] (QModelIndex.mk 0 5 true) DisplayRole =
          .ok .invalid)) ∧
    (DisplayRole ≠ DisplayRole →
      data mkParams [mkObject 2 10 2] (QModelIndex.mk 0 5 true) DisplayRole = .ok .invalid)) :=
  ⟨rfl, rfl, data_returns_the_fields mkParams [mkObject 2 10 2] (QModelIndex.mk 0 5 true)
    DisplayRole (mkObject 2 10 2) rfl rfl⟩

/-- C12 (notifications correspond to the mutations), on the display list
`[A, B, C]` with the snapshot `[B, C]`: the pass announces the removal of row 0
and performs it by moving the last record `C` into row 0, so the model ends
with the ids `[3, 2]`, while an observer that deletes the element at index 0
of `[1, 2, 3]`, the later ones moving down, holds `[2, 3]`. -/
theorem observer_sees_another_order :
    updateModel (mkDB [mkStatus 2 11 2, mkStatus 3 0 0])
        [mkObject 1 3 0, mkObject 2 10 2, mkObject 3 1 1] =
      .ok ([mkObject 3 0 0, mkObject 2 11 2],
        [Signal.dataChanged 1, Signal.dataChanged 2, Signal.rowsRemoved 0 0]) ∧
    observerReplay (ids [mkObject 3 0 0, mkObject 2 11 2])
        [Signal.dataChanged 1, Signal.dataChanged 2, Signal.rowsRemoved 0 0]
        (ids [mkObject 1 3 0, mkObject 2 10 2, mkObject 3 1 1]) = [2, 3] ∧
    ids [mkObject 3 0 0, mkObject 2 11 2] = [3, 2] :=
  ⟨rfl, rfl, rfl⟩

/-- C13 (completeness): a pass on a display list with pairwise distinct ids
ends without fault, and whenever a pass ends, every id of the snapshot is an
id of the resulting display list. -/
theorem snapshot_ids_all_displayed (scdb : SidechainDB)
    (model : List SidechainActivationTableObject) :
    ((ids model).Nodup → ∃ v, updateModel scdb model = .ok v) ∧
    ∀ v, updateModel scdb model = .ok v →
      ∀ X ∈ snapshotIds scdb.GetSidechainActivationStatus, X ∈ ids v.1 :=
  ⟨updateModel_total scdb model, fun v hv X hX => updateModel_complete scdb model v hv X hX⟩

theorem snapshot_ids_all_displayed_witness :
    ((ids [mkObject 1 3 0, mkObject 3 4 0, mkObject 2 10 2]).Nodup →
      ∃ v, updateModel (mkDB [mkStatus 3 5 0, mkStatus 4 0 0])
        [mkObject 1 3 0, mkObject 3 4 0, mkObject 2 10 2] = .ok v) ∧
    ∀ v, updateModel (mkDB [mkStatus 3 5 0, mkStatus 4 0 0])
        [mkObject 1 3 0, mkObject 3 4 0, mkObject 2 10 2] = .ok v →
      ∀ X ∈ snapshotIds (mkDB [mkStatus 3 5 0, mkStatus 4 0 0]).GetSidechainActivationStatus,
        X ∈ ids v.1 :=
  snapshot_ids_all_displayed (mkDB [mkStatus 3 5 0, mkStatus 4 0 0])
    [mkObject 1 3 0, mkObject 3 4 0, mkObject 2 10 2]

/-- C14 (removal progress): on a display list with pairwise distinct ids the
removal loop ends without reading outside of the list; the records it leaves
are records of the list after the update loop; every record it deletes is
stale; it deletes a stale record when there is one; the number of stale
records after the pass is at most the number before, smaller when that number
is not zero, and when it is zero after the pass the ids of the display list
are exactly the ids of the snapshot. -/
theorem removal_loop_makes_progress (scdb : SidechainDB)
    (model : List SidechainActivationTableObject) (hnd : (ids model).Nodup) :
    ∃ v2 v, removalPass scdb model = .ok v2 ∧ updateModel scdb model = .ok v ∧
      (∀ o ∈ v2.1, o ∈ (updatePass scdb scdb.GetSidechainActivationStatus model).model) ∧
      (∀ o ∈ (updatePass scdb scdb.GetSidechainActivationStatus model).model,
        o ∉ v2.1 → o.hash ∉ snapshotIds scdb.GetSidechainActivationStatus) ∧
      ((∃ o ∈ (updatePass scdb scdb.GetSidechainActivationStatus model).model,
          o.hash ∉ snapshotIds scdb.GetSidechainActivationStatus) →
        ∃ o ∈ (updatePass scdb scdb.GetSidechainActivationStatus model).model,
          o.hash ∉ snapshotIds scdb.GetSidechainActivationStatus ∧ o ∉ v2.1) ∧
      staleCount scdb.GetSidechainActivationStatus v.1 ≤
        staleCount scdb.GetSidechainActivationStatus model ∧
      (staleCount scdb.GetSidechainActivationStatus model ≠ 0 →
        staleCount scdb.GetSidechainActivationStatus v.1 <
          staleCount scdb.GetSidechainActivationStatus model) ∧
      (staleCount scdb.GetSidechainActivationStatus v.1 = 0 →
        ∀ X, X ∈ ids v.1 ↔ X ∈ snapshotIds scdb.GetSidechainActivationStatus) := by
  obtain ⟨v2, hr, hnd2, hsub, hkeep, hshr⟩ := removalPass_progress scdb model hnd
  obtain ⟨v, hv⟩ := updateModel_total scdb model hnd
  obtain ⟨w, hr2, hw⟩ := updateModel_eq scdb model v hv
  rw [hr] at hr2
  injection hr2 with hr2
  subst hr2
  rw [(updatePass_spec scdb scdb.GetSidechainActivationStatus model).1]
  have hm1 : (model.map (refresh scdb scdb.GetSidechainActivationStatus)).Nodup := by
    apply List.Nodup.of_map (fun object => object.hash)
    have := ids_refresh scdb scdb.GetSidechainActivationStatus model
    unfold ids at this
    rw [this]
    exact hnd
  have hv2 : v2.1.Nodup :=
    List.Nodup.of_map (fun object : SidechainActivationTableObject => object.hash) hnd2
  have hcount : staleCount scdb.GetSidechainActivationStatus v.1 =
      staleCount scdb.GetSidechainActivationStatus v2.1 := by
    have h0 := staleCount_new scdb scdb.GetSidechainActivationStatus v2.1
    rw [hw, insertNew_model]
    unfold staleCount at h0 ⊢
    rw [List.countP_append, h0, Nat.add_zero]
  have hle : staleCount scdb.GetSidechainActivationStatus v2.1 ≤
      staleCount scdb.GetSidechainActivationStatus model := by
    rw [← staleCount_refresh scdb scdb.GetSidechainActivationStatus model]
    unfold staleCount
    exact List.Subperm.countP_le _ (List.subperm_of_subset hv2 hsub)
  refine ⟨v2, v, hr, hv, hsub, ?_, ?_, ?_, ?_, ?_⟩
  · intro o ho hno hfresh
    exact hno (hkeep o ho hfresh)
  · rintro ⟨o, ho, hst⟩
    obtain ⟨o0, ho0, rfl⟩ := List.mem_map.mp ho
    rw [refresh_hash] at hst
    have hlt := hshr ⟨o0, ho0, hst⟩
    by_contra hall
    push_neg at hall
    have hsubset : model.map (refresh scdb scdb.GetSidechainActivationStatus) ⊆ v2.1 := by
      intro x hx
      by_cases hf : x.hash ∈ snapshotIds scdb.GetSidechainActivationStatus
      · exact hkeep x hx hf
      · exact hall x hx hf
    have := List.Subperm.length_le (List.subperm_of_subset hm1 hsubset)
    rw [List.length_map] at this
    omega
  · rw [hcount]
    exact hle
  · intro hpos
    rw [hcount, ← staleCount_refresh scdb scdb.GetSidechainActivationStatus model]
    unfold staleCount at hpos ⊢
    have hex : ∃ o ∈ model, o.hash ∉ snapshotIds scdb.GetSidechainActivationStatus := by
      by_contra hno
      push_neg at hno
      apply hpos
      rw [List.countP_eq_zero]
      intro a ha
      simpa using hno a ha
    apply countP_lt_of_part _ _ _ hm1
    · intro a ha hpa
      exact hkeep a ha (by simpa using hpa)
    · rw [List.length_map]
      exact hshr hex
  · intro hzero X
    constructor
    · intro hX
      unfold staleCount at hzero
      rw [List.countP_eq_zero] at hzero
      unfold ids at hX
      obtain ⟨o, ho, rfl⟩ := List.mem_map.mp hX
      simpa using hzero o ho
    · exact updateModel_complete scdb model v hv X

theorem removal_loop_makes_progress_witness :
    (ids [mkObject 1 3 0, mkObject 3 4 0, mkObject 2 10 2]).Nodup ∧
    ∃ v2 v, removalPass (mkDB [mkStatus 3 5 0])
        [mkObject 1 3 0, mkObject 3 4 0, mkObject 2 10 2] = .ok v2 ∧
      updateModel (mkDB [mkStatus 3 5 0])
        [mkObject 1 3 0, mkObject 3 4 0, mkObject 2 10 2] = .ok v ∧
      (∀ o ∈ v2.1, o ∈ (updatePass (mkDB [mkStatus 3 5 0])
        (mkDB [mkStatus 3 5 0]).GetSidechainActivationStatus
        [mkObject 1 3 0, mkObject 3 4 0, mkObject 2 10 2]).model) ∧
      (∀ o ∈ (updatePass (mkDB [mkStatus 3 5 0])
          (mkDB [mkStatus 3 5 0]).GetSidechainActivationStatus
          [mkObject 1 3 0, mkObject 3 4 0, mkObject 2 10 2]).model,
        o ∉ v2.1 → o.hash ∉ snapshotIds (mkDB [mkStatus 3 5 0]).GetSidechainActivationStatus) ∧
      ((∃ o ∈ (updatePass (mkDB [mkStatus 3 5 0])
          (mkDB [mkStatus 3 5 0]).GetSidechainActivationStatus
          [mkObject 1 3 0, mkObject 3 4 0, mkObject 2 10 2]).model,
          o.hash ∉ snapshotIds (mkDB [mkStatus 3 5 0]).GetSidechainActivationStatus) →
        ∃ o ∈ (updatePass (mkDB [mkStatus 3 5 0])
          (mkDB [mkStatus 3 5 0]).GetSidechainActivationStatus
          [mkObject 1 3 0, mkObject 3 4 0, mkObject 2 10 2]).model,
          o.hash ∉ snapshotIds (mkDB [mkStatus 3 5 0]).GetSidechainActivationStatus ∧
            o ∉ v2.1) ∧
      staleCount (mkDB [mkStatus 3 5 0]).GetSidechainActivationStatus v.1 ≤
        staleCount (mkDB [mkStatus 3 5 0]).GetSidechainActivationStatus
          [mkObject 1 3 0, mkObject 3 4 0, mkObject 2 10 2] ∧
      (staleCount (mkDB [mkStatus 3 5 0]).GetSidechainActivationStatus
          [mkObject 1 3 0, mkObject 3 4 0, mkObject 2 10 2] ≠ 0 →
        staleCount (mkDB [mkStatus 3 5 0]).GetSidechainActivationStatus v.1 <
          staleCount (mkDB [mkStatus 3 5 0]).GetSidechainActivationStatus
            [mkObject 1 3 0, mkObject 3 4 0, mkObject 2 10 2]) ∧
      (staleCount (mkDB [mkStatus 3 5 0]).GetSidechainActivationStatus v.1 = 0 →
        ∀ X, X ∈ ids v.1 ↔
          X ∈ snapshotIds (mkDB [mkStatus 3 5 0]).GetSidechainActivationStatus) :=
  ⟨by decide, removal_loop_makes_progress (mkDB [mkStatus 3 5 0])
    [mkObject 1 3 0, mkObject 3 4 0, mkObject 2 10 2] (by decide)⟩

end SidechainActivation
